import Mathlib

/-!
Verification model of `reminder_app.py` (kerolus77/reminder-app).

The file shallowly embeds the scheduling/notification core of the program:

* the serialization of trigger times (`Reminder.to_dict` line 31 and the
  `strptime` calls at lines 40 and 95, both using the format
  `%Y-%m-%d %H:%M`) as a concrete fixed-width formatter and parser over a
  `DT` (datetime) structure;
* `Reminder.from_dict` (lines 35-43) including Python's left-to-right
  evaluation of the keyword arguments and the resulting exceptions;
* the concurrent core — `self.reminders` / `self.monitoring_threads` /
  `self.notification_queue` together with `_add_reminder` (lines 263-320),
  `_edit_reminder`+`_add_reminder` edit branch (lines 285-295),
  `_remove_reminder` (lines 424-450), `_monitor_reminder` (lines 453-483),
  `_load_reminders` (lines 83-119) and `_handle_notifications`
  (lines 485-500) — as a small-step transition system `step` over
  `AppState`, where each monitor thread is represented by an explicit
  program counter (`MPC`) whose micro-steps correspond to the individual
  statements of the Python loop, so that every thread interleaving of the
  CPython execution (one bytecode line at a time under the GIL) is a trace
  of the system.

Timestamps in the transition system are abstract instants (`Nat`), an
order-preserving abstraction of `datetime` values; `DT.toInstant` is the
order embedding used where parsed datetimes meet instant comparisons.
-/

/-- Model of a Python `datetime.datetime` value: the seven time fields.
`second` and `usec` exist on every datetime but are not written by the
format `%Y-%m-%d %H:%M` (reminder_app.py line 31). -/
structure DT where
  year : Nat
  month : Nat
  day : Nat
  hour : Nat
  minute : Nat
  second : Nat
  usec : Nat
deriving DecidableEq

/-- The number of days of a month, as the `datetime` calendar has it
(Gregorian leap years). -/
def daysInMonth (y m : Nat) : Nat :=
  if m = 2 then (if y % 4 = 0 ∧ (y % 100 ≠ 0 ∨ y % 400 = 0) then 29 else 28)
  else if m = 4 ∨ m = 6 ∨ m = 9 ∨ m = 11 then 30 else 31

/-- The range constraints `datetime.datetime` enforces on its fields
(MINYEAR = 1, MAXYEAR = 9999, calendar-valid day, etc.). -/
def DT.Valid (t : DT) : Prop :=
  1 ≤ t.year ∧ t.year ≤ 9999 ∧ 1 ≤ t.month ∧ t.month ≤ 12 ∧
  1 ≤ t.day ∧ t.day ≤ daysInMonth t.year t.month ∧
  t.hour ≤ 23 ∧ t.minute ≤ 59 ∧ t.second ≤ 59 ∧ t.usec ≤ 999999

/-- The ASCII digit character for `n < 10`, as produced by `strftime`'s
zero-padded numeric directives. -/
def digitChar (n : Nat) : Char := Char.ofNat (48 + n)

/-- `strftime("%Y-%m-%d %H:%M")` (reminder_app.py line 31): the fixed
16-character string `YYYY-MM-DD HH:MM`, each field zero-padded
(for `n < 100`, the two digits are `n / 10` and `n % 10`; the four year
digits are the two digit pairs of `year / 100` and `year % 100`).
Seconds and microseconds are not written. -/
def strftimeMinute (t : DT) : String :=
  String.mk
    [digitChar (t.year / 100 / 10), digitChar (t.year / 100 % 10),
     digitChar (t.year % 100 / 10), digitChar (t.year % 100 % 10), '-',
     digitChar (t.month / 10), digitChar (t.month % 10), '-',
     digitChar (t.day / 10), digitChar (t.day % 10), ' ',
     digitChar (t.hour / 10), digitChar (t.hour % 10), ':',
     digitChar (t.minute / 10), digitChar (t.minute % 10)]

/-- Parse one ASCII digit, as `strptime`'s numeric directives do. -/
def parseDigit (c : Char) : Option Nat :=
  if 48 ≤ c.toNat ∧ c.toNat ≤ 57 then some (c.toNat - 48) else none

/-- Parse a zero-padded two-digit field. -/
def parse2 (a b : Char) : Option Nat :=
  match parseDigit a, parseDigit b with
  | some x, some y => some (10 * x + y)
  | _, _ => none

/-- Parse a zero-padded four-digit field as its two digit pairs. -/
def parse4 (a b c d : Char) : Option Nat :=
  match parse2 a b, parse2 c d with
  | some hi, some lo => some (100 * hi + lo)
  | _, _ => none

/-- `datetime.strptime(s, "%Y-%m-%d %H:%M")` (reminder_app.py lines 40, 95,
278): accepts exactly the 16-character shape `YYYY-MM-DD HH:MM` with
in-range fields (the constructed `datetime` validates them), and defaults
the unmentioned `second` and `microsecond` fields to zero. Any other
string raises `ValueError`, modelled as `none`. -/
def strptimeMinute (str : String) : Option DT :=
  match str.data with
  | [y1, y2, y3, y4, '-', m1, m2, '-', d1, d2, ' ', h1, h2, ':', n1, n2] =>
    match parse4 y1 y2 y3 y4, parse2 m1 m2, parse2 d1 d2,
          parse2 h1 h2, parse2 n1 n2 with
    | some y, some mo, some d, some hh, some mi =>
      if 1 ≤ y ∧ 1 ≤ mo ∧ mo ≤ 12 ∧ 1 ≤ d ∧ d ≤ daysInMonth y mo ∧
         hh ≤ 23 ∧ mi ≤ 59
      then some ⟨y, mo, d, hh, mi, 0, 0⟩ else none
    | _, _, _, _, _ => none
  | _ => none

/-- The save-then-load round trip for a reminder's trigger instant:
`to_dict`'s `strftime` (line 31) followed by load's `strptime` (line 95). -/
def trigger_roundtrip (t : DT) : Option DT :=
  strptimeMinute (strftimeMinute t)

/-- An order embedding of valid datetimes into abstract instants (`Nat`);
used where the Python code compares datetimes (it is strictly monotone in
lexicographic field order for `DT.Valid` values). -/
def DT.toInstant (t : DT) : Nat :=
  (((((t.year * 13 + t.month) * 32 + t.day) * 24 + t.hour) * 60 + t.minute)
      * 60 + t.second) * 1000000 + t.usec

/-- Model of the constructed `Reminder` object (class `Reminder`,
reminder_app.py lines 15-24): `id` generated at creation, `is_active`
initialised to `True`. -/
structure Reminder where
  id : String
  title : String
  description : String
  trigger_time : DT
  is_active : Bool
deriving DecidableEq

/-- The exceptions the `from_dict` code path can raise. -/
inductive PyError where
  | keyError (key : String)
  | valueError
  | typeError
deriving DecidableEq

/-- The JSON dictionary handed to `Reminder.from_dict`: each of the five
fields the code reads is present or absent. -/
structure DictData where
  title : Option String
  description : Option String
  trigger_time : Option String
  id : Option String
  is_active : Option Bool
deriving DecidableEq

/-- `Reminder.from_dict` (reminder_app.py lines 35-43). Python evaluates
the keyword arguments left to right: `data["title"]`,
`data["description"]`, `strptime(data["trigger_time"], ...)`,
`data["id"]`, `data["is_active"]` — a missing key raises `KeyError`, a
malformed trigger string raises `ValueError` — and then performs the call
`Reminder(title=..., description=..., trigger_time=..., reminder_id=...,
is_active=...)`, which raises `TypeError` because `Reminder.__init__`
(lines 16-24) accepts only `title`, `description`, `trigger_time`. -/
def from_dict (d : DictData) : Except PyError Reminder :=
  match d.title with
  | none => .error (.keyError ("title"))
  | some _ =>
    match d.description with
    | none => .error (.keyError ("description"))
    | some _ =>
      match d.trigger_time with
      | none => .error (.keyError ("trigger_time"))
      | some ts =>
        match strptimeMinute ts with
        | none => .error .valueError
        | some _ =>
          match d.id with
          | none => .error (.keyError ("id"))
          | some _ =>
            match d.is_active with
            | none => .error (.keyError ("is_active"))
            | some _ => .error .typeError

/-- A reminder record as held in memory: the mutable fields of a
`Reminder` object (reminder_app.py lines 16-24). The `trigger` field is
the abstract instant of `trigger_time`; the object identity (the `id`
attribute) is the key under which the record is stored. -/
structure MRec where
  title : String
  description : String
  trigger : Nat
  is_active : Bool
deriving DecidableEq

/-- The in-place deactivation `reminder.is_active = False` performed by
`_remove_reminder` (line 436) and by the monitor (line 474). -/
def deactivate (r : MRec) : MRec := { r with is_active := false }

/-- Program counter of one `_monitor_reminder` thread (reminder_app.py
lines 453-483). Each value names the next statement the thread will
execute; the CPython GIL makes each statement's shared-memory access
atomic, so thread interleavings are interleavings of these micro-steps.

* `loopTop` — about to evaluate `self.stop_event.is_set()` (line 458);
* `lookupTh` — about to evaluate the f-string's
  `self.monitoring_threads[reminder.id]` subscript (line 459), which
  raises `KeyError` when the key was deleted;
* `readNow` — about to execute `current_time = datetime.now()` (line 460);
* `activeCheck t` — holding `current_time = t`, about to execute
  `if not reminder.is_active` (line 463);
* `condCheck t` — about to execute
  `if current_time >= reminder.trigger_time and reminder.is_active`
  (line 468);
* `putStep t` — the condition held; about to execute
  `self.notification_queue.put({...})` (line 470);
* `deactStep` — about to execute `reminder.is_active = False` under the
  lock (lines 473-474);
* `exitStop`, `exitInactive`, `exitFired` — the thread has returned
  (loop exit at line 458, break at line 465, break at line 478);
* `crashed` — the thread died with `KeyError` at line 459. -/
inductive MPC where
  | loopTop
  | lookupTh
  | readNow
  | activeCheck (t : Nat)
  | condCheck (t : Nat)
  | putStep (t : Nat)
  | deactStep
  | exitStop
  | exitInactive
  | exitFired
  | crashed
deriving DecidableEq

/-- A notification event as put on `self.notification_queue`
(reminder_app.py line 470): `{"title": ..., "description": ...}`, tagged
(as ghost bookkeeping) with the id of the reminder whose monitor produced
it. -/
structure Evt where
  rid : Nat
  title : String
  description : String
deriving DecidableEq

/-- Association-list lookup by `Nat` key (Python dict read). -/
def lget {α : Type} : List (Nat × α) → Nat → Option α
  | [], _ => none
  | (k, v) :: rest, i => if i = k then some v else lget rest i

/-- Association-list in-place update by `Nat` key (mutating the object a
Python dict maps the key to). -/
def lset {α : Type} (f : α → α) : List (Nat × α) → Nat → List (Nat × α)
  | [], _ => []
  | (k, v) :: rest, i =>
    if i = k then (k, f v) :: rest else (k, v) :: lset f rest i

/-- Global state of the scheduling/notification core of `ReminderApp`
(reminder_app.py lines 56-60 plus the running monitor threads).

* `time` — the current instant, as `datetime.now()` returns it;
* `heap` — every `Reminder` object ever created, by id; objects stay
  reachable from their monitor thread after removal from the dict, so the
  heap never shrinks;
* `store` — the key set of `self.reminders`;
* `monitors` — the key set of `self.monitoring_threads`;
* `threads` — the program counter of every monitor thread ever started,
  by reminder id;
* `queueLog` — every event ever put on `self.notification_queue`, in
  order (ghost history);
* `pending` — the current contents of the queue;
* `dispatched` — the events `_handle_notifications` has taken, in order;
* `stopFlag` — `self.stop_event`. -/
structure AppState where
  time : Nat
  heap : List (Nat × MRec)
  store : List Nat
  monitors : List Nat
  threads : List (Nat × MPC)
  queueLog : List Evt
  pending : List Evt
  dispatched : List Evt
  stopFlag : Bool
deriving DecidableEq

/-- Append an event to the queue (and to its ghost history). -/
def putEvt (s : AppState) (e : Evt) : AppState :=
  { s with queueLog := s.queueLog ++ [e], pending := s.pending ++ [e] }

/-- Set the program counter of thread `id`. -/
def setPC (s : AppState) (id : Nat) (pc : MPC) : AppState :=
  { s with threads := lset (fun _ => pc) s.threads id }

/-- One micro-step of the `_monitor_reminder` loop (reminder_app.py
lines 453-483) for the thread of reminder `id`; the identity when the
thread does not exist or has terminated. Each case executes the statement
named by the current `MPC` value (see there). -/
def mstep (s : AppState) (id : Nat) : AppState :=
  match lget s.threads id with
  | none => s
  | some pc =>
    match pc with
    | .loopTop =>
      if s.stopFlag then setPC s id .exitStop else setPC s id .lookupTh
    | .lookupTh =>
      if id ∈ s.monitors then setPC s id .readNow else setPC s id .crashed
    | .readNow => setPC s id (.activeCheck s.time)
    | .activeCheck t =>
      match lget s.heap id with
      | none => s
      | some r =>
        if r.is_active then setPC s id (.condCheck t)
        else setPC s id .exitInactive
    | .condCheck t =>
      match lget s.heap id with
      | none => s
      | some r =>
        if r.trigger ≤ t ∧ r.is_active then setPC s id (.putStep t)
        else setPC s id .loopTop
    | .putStep _ =>
      match lget s.heap id with
      | none => s
      | some r => setPC (putEvt s ⟨id, r.title, r.description⟩) id .deactStep
    | .deactStep =>
      setPC { s with heap := lset deactivate s.heap id } id .exitFired
    | .exitStop | .exitInactive | .exitFired | .crashed => s

/-- The atomic actions of the system. `tick` advances the clock;
`spawn` is the locked add-new block of `_add_reminder` (lines 285, 297-304)
after the boundary checks passed (title nonempty, trigger not in the past,
fresh uuid); `load` is one iteration of the `_load_reminders` loop for a
successfully parsed record (lines 90-110); `edit` is the locked editing
branch of `_add_reminder` (lines 285-295) after the same boundary checks;
`remove` is the locked block of `_remove_reminder` (lines 428-443);
`mstep` is one monitor micro-step; `dispatch` is one iteration of
`_handle_notifications` (lines 489-500); `stopApp` sets
`self.stop_event` (line 549). -/
inductive Act where
  | tick
  | stopApp
  | spawn (id : Nat) (title description : String) (trigger : Nat)
  | load (id : Nat) (title description : String) (trigger : Nat)
      (loadedActive : Bool)
  | edit (id : Nat) (title description : String) (trigger : Nat)
  | remove (id : Nat)
  | mstep (id : Nat)
  | dispatch
deriving DecidableEq

/-- The transition function. Actions whose Python-side preconditions fail
(the guards the code checks, or freshness of a generated uuid) leave the
state unchanged. -/
def step (s : AppState) : Act → AppState
  | .tick => { s with time := s.time + 1 }
  | .stopApp => { s with stopFlag := true }
  | .spawn id title description trigger =>
    if lget s.heap id = none ∧ s.time ≤ trigger ∧ title ≠ "" then
      { s with
        heap := (id, ⟨title, description, trigger, true⟩) :: s.heap,
        store := id :: s.store,
        monitors := id :: s.monitors,
        threads := (id, .loopTop) :: s.threads }
    else s
  | .load id title description trigger loadedActive =>
    if lget s.heap id = none then
      if trigger < s.time then
        { s with
          heap := (id, ⟨title, description, trigger, false⟩) :: s.heap,
          store := id :: s.store }
      else if loadedActive then
        { s with
          heap := (id, ⟨title, description, trigger, true⟩) :: s.heap,
          store := id :: s.store,
          monitors := id :: s.monitors,
          threads := (id, .loopTop) :: s.threads }
      else
        { s with
          heap := (id, ⟨title, description, trigger, false⟩) :: s.heap,
          store := id :: s.store }
    else s
  | .edit id title description trigger =>
    if id ∈ s.store ∧ s.time ≤ trigger ∧ title ≠ "" then
      { s with
        heap := lset (fun _ => ⟨title, description, trigger, true⟩) s.heap id }
    else s
  | .remove id =>
    if id ∈ s.store then
      { s with
        store := s.store.filter (fun j => j ≠ id),
        heap := lset deactivate s.heap id,
        monitors := s.monitors.filter (fun j => j ≠ id) }
    else s
  | .mstep id => mstep s id
  | .dispatch =>
    if s.stopFlag then s
    else
      match s.pending with
      | [] => s
      | e :: rest =>
        { s with pending := rest, dispatched := s.dispatched ++ [e] }

/-- Run a list of actions from a state. -/
def runActs (s : AppState) (acts : List Act) : AppState :=
  acts.foldl step s

/-- The state right after `ReminderApp.__init__` set up the empty
dictionaries, the queue and the stop event (reminder_app.py lines 56-60),
at instant `t0`. -/
def initState (t0 : Nat) : AppState :=
  ⟨t0, [], [], [], [], [], [], [], false⟩

/-- Number of events ever enqueued for reminder `id`. -/
def countId (id : Nat) (s : AppState) : Nat :=
  (s.queueLog.filter (fun e => e.rid = id)).length

/-- How many events a monitor thread in the given state has put on the
queue: exactly one once it has executed line 470, zero before. -/
def firedCount : Option MPC → Nat
  | some .deactStep => 1
  | some .exitFired => 1
  | _ => 0

/-- The instant a monitor's program counter carries (its local
`current_time` variable), when it has one in scope. -/
def pcT : Option MPC → Option Nat
  | some (.activeCheck t) => some t
  | some (.condCheck t) => some t
  | some (.putStep t) => some t
  | _ => none

/-- The system invariant: the queue history splits into dispatched and
pending events in order; per-event production counts match the producing
thread's progress; threads, store keys and monitor keys all have heap
objects; and every locally read `current_time` is no later than the
clock. -/
def SysInv (s : AppState) : Prop :=
  s.queueLog = s.dispatched ++ s.pending ∧
  ∀ id : Nat,
    countId id s = firedCount (lget s.threads id) ∧
    ((lget s.threads id).isSome → (lget s.heap id).isSome) ∧
    (∀ t, pcT (lget s.threads id) = some t → t ≤ s.time) ∧
    (id ∈ s.store → (lget s.heap id).isSome) ∧
    (id ∈ s.monitors → (lget s.heap id).isSome)

/-- Does this action edit reminder `id`? (Used to state claims whose
scope excludes concurrent edits of the reminder in question.) -/
def isEditOf (id : Nat) : Act → Bool
  | .edit j _ _ _ => decide (j = id)
  | _ => false

/-- Python's `str.strip()`: drop leading and trailing whitespace. -/
def pyStrip (s : String) : String :=
  String.mk
    (((s.data.dropWhile Char.isWhitespace).reverse.dropWhile
        Char.isWhitespace).reverse)

/-- The result `_add_reminder` (reminder_app.py lines 263-320) reports:
one of the three rejection message boxes, the uncaught `KeyError` of the
editing branch when the edited id has been removed meanwhile, or success.
-/
inductive AddResult where
  | errEmptyTitle
  | errInvalidTime
  | errPast
  | keyErrorEdit
  | okAdded (id : Nat)
  | okUpdated (id : Nat)
deriving DecidableEq

/-- `_add_reminder` (reminder_app.py lines 263-320) as one function from
the raw form inputs to the next state and the reported result.

* `title_entry.get().strip()` and the stripped description (lines
  267-268), reject on empty title (lines 272-274);
* `strptime(f"{date_str} {time_str}", "%Y-%m-%d %H:%M")` (line 278);
  `ValueError` is caught at line 319 and reported, with nothing mutated;
* reject `trigger_time < datetime.now()` (lines 281-283);
* then, under the lock: the editing branch mutates the existing record in
  place and re-activates it (lines 286-295, spawning no thread; the
  subscript at line 289 raises `KeyError` out of `_add_reminder` if the
  id is gone), and the add branch stores a fresh record and starts its
  monitor thread (lines 297-304). `freshId` stands for the generated
  uuid. -/
def addReminder (s : AppState) (editingId : Option Nat) (freshId : Nat)
    (rawTitle rawDesc dateStr timeStr : String) :
    AppState × AddResult :=
  let title := pyStrip rawTitle
  let description := pyStrip rawDesc
  if title = "" then (s, .errEmptyTitle)
  else
    match strptimeMinute (dateStr ++ " " ++ pyStrip timeStr) with
    | none => (s, .errInvalidTime)
    | some dt =>
      if dt.toInstant < s.time then (s, .errPast)
      else
        match editingId with
        | some rid =>
          if rid ∈ s.store then
            ({ s with
               heap := lset (fun _ => ⟨title, description, dt.toInstant, true⟩)
                 s.heap rid },
             .okUpdated rid)
          else (s, .keyErrorEdit)
        | none =>
          ({ s with
             heap := (freshId, ⟨title, description, dt.toInstant, true⟩)
               :: s.heap,
             store := freshId :: s.store,
             monitors := freshId :: s.monitors,
             threads := (freshId, .loopTop) :: s.threads },
           .okAdded freshId)

/-- The current trigger instant of the reminder object with the given id. -/
def trigOf (s : AppState) (id : Nat) : Option Nat :=
  (lget s.heap id).map (fun r => r.trigger)

/-- A monitor fires only at or after its reminder's (current) trigger:
if the thread of `id` is about to enqueue, its `current_time` is at or
past the trigger, and once it has enqueued, the trigger is at or before
the clock. Holds along every run without edits of `id`. -/
def FiredLate (id : Nat) (s : AppState) : Prop :=
  (∀ t, lget s.threads id = some (.putStep t) →
    ∃ g, trigOf s id = some g ∧ g ≤ t) ∧
  ((lget s.threads id = some MPC.deactStep ∨
      lget s.threads id = some MPC.exitFired) →
    ∃ g, trigOf s id = some g ∧ g ≤ s.time)

/-- The state of a reminder after its removal: object deactivated, id
gone from the store, and its monitor (if any) not in the middle of
firing. From such a state the monitor can never enqueue again. -/
def DeadFor (id : Nat) (s : AppState) : Prop :=
  (∃ r, lget s.heap id = some r ∧ r.is_active = false) ∧
  ¬ id ∈ s.store ∧
  (∀ t, lget s.threads id ≠ some (.putStep t)) ∧
  lget s.threads id ≠ some MPC.deactStep

/-- Interleaving for C2: a reminder due at instant 0 is created; its
monitor runs up to the point where the firing condition of line 468 has
been checked (program counter `putStep`), then the reminder is removed;
the monitor then executes line 470 anyway. -/
def c2trace : List Act :=
  [.spawn 0 ("t") ("d") 0, .mstep 0, .mstep 0, .mstep 0, .mstep 0,
   .mstep 0, .remove 0]

/-- Interleaving for C4: at instant 7, a reminder with trigger exactly 7
and stored flag `true` is loaded, then its monitor runs one full loop
iteration through the enqueue of line 470. -/
def c4trace : List Act :=
  [.load 0 ("a") ("b") 7 true, .mstep 0, .mstep 0, .mstep 0, .mstep 0,
   .mstep 0, .mstep 0]

/-- Interleaving for C5: a reminder due at instant 5 is created at
instant 0; at instant 5 its monitor passes the firing condition of line
468 (program counter `putStep`); the reminder is then edited to the new
future trigger 100; the monitor then executes line 470 anyway. -/
def c5trace : List Act :=
  [.spawn 0 ("a") ("b") 5, .tick, .tick, .tick, .tick, .tick,
   .mstep 0, .mstep 0, .mstep 0, .mstep 0, .mstep 0,
   .edit 0 ("a") ("b") 100]

theorem lget_cons {α : Type} (k : Nat) (v : α) (l : List (Nat × α)) (j : Nat) :
    lget ((k, v) :: l) j = if j = k then some v else lget l j := rfl

theorem lget_lset_eq {α : Type} (f : α → α) (l : List (Nat × α)) (k : Nat) :
    lget (lset f l k) k = (lget l k).map f := by
  induction l with
  | nil => rfl
  | cons hd tl ih =>
    obtain ⟨k', v⟩ := hd
    by_cases h : k = k'
    · subst h; simp [lget, lset]
    · simp [lget, lset, h, ih]

theorem lget_lset_ne {α : Type} (f : α → α) (l : List (Nat × α)) (k j : Nat)
    (h : j ≠ k) : lget (lset f l k) j = lget l j := by
  induction l with
  | nil => rfl
  | cons hd tl ih =>
    obtain ⟨k', v⟩ := hd
    by_cases hk : k = k'
    · subst hk; simp [lget, lset, h]
    · by_cases hj : j = k'
      · subst hj; simp [lget, lset, hk]
      · simp [lget, lset, hk, hj, ih]

theorem lget_lset_self {α : Type} (f : α → α) (l : List (Nat × α)) (k : Nat)
    (v : α) (h : lget l k = some v) : lget (lset f l k) k = some (f v) := by
  rw [lget_lset_eq, h]; rfl

theorem isSome_lget_lset {α : Type} (f : α → α) (l : List (Nat × α))
    (k j : Nat) : (lget (lset f l k) j).isSome = (lget l j).isSome := by
  by_cases h : j = k
  · subst h; rw [lget_lset_eq]; cases lget l j <;> rfl
  · rw [lget_lset_ne _ _ _ _ h]

theorem countId_putEvt (id : Nat) (s : AppState) (e : Evt) :
    countId id (putEvt s e) =
      countId id s + if e.rid = id then 1 else 0 := by
  by_cases h : e.rid = id <;>
    simp [countId, putEvt, List.filter_append, h]

theorem countId_setPC (id j : Nat) (s : AppState) (pc : MPC) :
    countId id (setPC s j pc) = countId id s := rfl

theorem firedCount_le_one (o : Option MPC) : firedCount o ≤ 1 := by
  match o with
  | none => exact Nat.zero_le 1
  | some pc => cases pc <;> simp [firedCount]

theorem runActs_nil (s : AppState) : runActs s [] = s := rfl

theorem runActs_cons (s : AppState) (a : Act) (acts : List Act) :
    runActs s (a :: acts) = runActs (step s a) acts := rfl

theorem runActs_append (s : AppState) (l1 l2 : List Act) :
    runActs s (l1 ++ l2) = runActs (runActs s l1) l2 :=
  List.foldl_append ..

theorem runActs_preserve {P : AppState → Prop}
    (h : ∀ s a, P s → P (step s a)) :
    ∀ acts s, P s → P (runActs s acts) := by
  intro acts
  induction acts with
  | nil => intro s hs; exact hs
  | cons a rest ih =>
    intro s hs
    rw [runActs_cons]
    exact ih _ (h _ _ hs)

theorem runActs_preserve_of {P : AppState → Prop} {ok : Act → Prop}
    (h : ∀ s a, ok a → P s → P (step s a)) :
    ∀ acts s, (∀ a ∈ acts, ok a) → P s → P (runActs s acts) := by
  intro acts
  induction acts with
  | nil => intro s _ hs; exact hs
  | cons a rest ih =>
    intro s hok hs
    rw [runActs_cons]
    exact ih _ (fun b hb => hok b (List.mem_cons_of_mem a hb))
      (h _ _ (hok a (List.mem_cons_self a rest)) hs)

theorem sysInv_setPC (s : AppState) (id0 : Nat) (pcOld pcNew : MPC)
    (hth : lget s.threads id0 = some pcOld)
    (hfc : firedCount (some pcNew) = firedCount (some pcOld))
    (hpc : ∀ t, pcT (some pcNew) = some t →
      pcT (some pcOld) = some t ∨ t ≤ s.time)
    (h : SysInv s) : SysInv (setPC s id0 pcNew) := by
  refine ⟨h.1, fun id => ?_⟩
  obtain ⟨h1, h2, h3, h4, h5⟩ := h.2 id
  by_cases hi : id = id0
  · subst hi
    have hget : lget (setPC s id pcNew).threads id = some pcNew :=
      lget_lset_self _ _ _ _ hth
    refine ⟨?_, ?_, ?_, h4, h5⟩
    · rw [countId_setPC, hget, hfc, h1, hth]
    · intro _
      exact h2 (by rw [hth]; rfl)
    · intro t ht
      rw [hget] at ht
      rcases hpc t ht with hl | hr
      · exact h3 t (by rw [hth]; exact hl)
      · exact hr
  · have hget : lget (setPC s id0 pcNew).threads id = lget s.threads id :=
      lget_lset_ne _ _ _ _ hi
    refine ⟨?_, ?_, ?_, h4, h5⟩
    · rw [countId_setPC, hget]; exact h1
    · rw [hget]; exact h2
    · rw [hget]; exact h3


theorem sysInv_consActive (s : AppState) (id0 : Nat) (v : MRec)
    (hfresh : lget s.heap id0 = none) (h : SysInv s) :
    SysInv { s with
      heap := (id0, v) :: s.heap,
      store := id0 :: s.store,
      monitors := id0 :: s.monitors,
      threads := (id0, MPC.loopTop) :: s.threads } := by
  obtain ⟨hq, hid⟩ := h
  refine ⟨hq, fun id => ?_⟩
  obtain ⟨h1, h2, h3, h4, h5⟩ := hid id
  by_cases hi : id = id0
  · subst hi
    have hthr : lget s.threads id = none := by
      cases hth : lget s.threads id with
      | none => rfl
      | some pc =>
        have := h2 (by rw [hth]; rfl)
        rw [hfresh] at this
        exact absurd this (by simp)
    refine ⟨?_, fun _ => ?_, ?_, fun _ => ?_, fun _ => ?_⟩
    · show countId id s = firedCount (lget ((id, MPC.loopTop) :: s.threads) id)
      rw [lget_cons, if_pos rfl, h1, hthr]
      rfl
    · show (lget ((id, v) :: s.heap) id).isSome
      rw [lget_cons, if_pos rfl]
      rfl
    · intro t ht
      show t ≤ s.time
      rw [show lget ((id, MPC.loopTop) :: s.threads) id = some .loopTop from by
        rw [lget_cons, if_pos rfl]] at ht
      exact absurd ht (by simp [pcT])
    · show (lget ((id, v) :: s.heap) id).isSome
      rw [lget_cons, if_pos rfl]
      rfl
    · show (lget ((id, v) :: s.heap) id).isSome
      rw [lget_cons, if_pos rfl]
      rfl
  · have e1 : lget ((id0, MPC.loopTop) :: s.threads) id = lget s.threads id := by
      rw [lget_cons, if_neg hi]
    have e2 : lget ((id0, v) :: s.heap) id = lget s.heap id := by
      rw [lget_cons, if_neg hi]
    refine ⟨?_, ?_, ?_, fun hm => ?_, fun hm => ?_⟩
    · show countId id s = firedCount (lget ((id0, MPC.loopTop) :: s.threads) id)
      rw [e1]
      exact h1
    · show (lget ((id0, MPC.loopTop) :: s.threads) id).isSome →
        (lget ((id0, v) :: s.heap) id).isSome
      rw [e1, e2]
      exact h2
    · show ∀ t, pcT (lget ((id0, MPC.loopTop) :: s.threads) id) = some t →
        t ≤ s.time
      rw [e1]
      exact h3
    · show (lget ((id0, v) :: s.heap) id).isSome
      rw [e2]
      rcases List.mem_cons.1 hm with hrfl | hmem
      · exact absurd hrfl hi
      · exact h4 hmem
    · show (lget ((id0, v) :: s.heap) id).isSome
      rw [e2]
      rcases List.mem_cons.1 hm with hrfl | hmem
      · exact absurd hrfl hi
      · exact h5 hmem

theorem sysInv_consInactive (s : AppState) (id0 : Nat) (v : MRec)
    (h : SysInv s) :
    SysInv { s with
      heap := (id0, v) :: s.heap,
      store := id0 :: s.store } := by
  obtain ⟨hq, hid⟩ := h
  refine ⟨hq, fun id => ?_⟩
  obtain ⟨h1, h2, h3, h4, h5⟩ := hid id
  by_cases hi : id = id0
  · subst hi
    refine ⟨h1, fun _ => ?_, h3, fun _ => ?_, fun _ => ?_⟩
    · show (lget ((id, v) :: s.heap) id).isSome
      rw [lget_cons, if_pos rfl]
      rfl
    · show (lget ((id, v) :: s.heap) id).isSome
      rw [lget_cons, if_pos rfl]
      rfl
    · show (lget ((id, v) :: s.heap) id).isSome
      rw [lget_cons, if_pos rfl]
      rfl
  · have e2 : lget ((id0, v) :: s.heap) id = lget s.heap id := by
      rw [lget_cons, if_neg hi]
    refine ⟨h1, ?_, h3, fun hm => ?_, fun hm => ?_⟩
    · show (lget s.threads id).isSome → (lget ((id0, v) :: s.heap) id).isSome
      rw [e2]
      exact h2
    · show (lget ((id0, v) :: s.heap) id).isSome
      rw [e2]
      rcases List.mem_cons.1 hm with hrfl | hmem
      · exact absurd hrfl hi
      · exact h4 hmem
    · show (lget ((id0, v) :: s.heap) id).isSome
      rw [e2]
      exact h5 hm

theorem sysInv_lsetHeap (s : AppState) (f : MRec → MRec) (id0 : Nat)
    (h : SysInv s) : SysInv { s with heap := lset f s.heap id0 } := by
  obtain ⟨hq, hid⟩ := h
  refine ⟨hq, fun id => ?_⟩
  obtain ⟨h1, h2, h3, h4, h5⟩ := hid id
  have e : (lget (lset f s.heap id0) id).isSome = (lget s.heap id).isSome :=
    isSome_lget_lset ..
  refine ⟨h1, fun hs => ?_, h3, fun hm => ?_, fun hm => ?_⟩
  · show (lget (lset f s.heap id0) id).isSome
    rw [e]
    exact h2 hs
  · show (lget (lset f s.heap id0) id).isSome
    rw [e]
    exact h4 hm
  · show (lget (lset f s.heap id0) id).isSome
    rw [e]
    exact h5 hm

theorem sysInv_remove (s : AppState) (id0 : Nat) (h : SysInv s) :
    SysInv { s with
      store := s.store.filter (fun j => j ≠ id0),
      heap := lset deactivate s.heap id0,
      monitors := s.monitors.filter (fun j => j ≠ id0) } := by
  obtain ⟨hq, hid⟩ := h
  refine ⟨hq, fun id => ?_⟩
  obtain ⟨h1, h2, h3, h4, h5⟩ := hid id
  have e : (lget (lset deactivate s.heap id0) id).isSome
      = (lget s.heap id).isSome := isSome_lget_lset ..
  refine ⟨h1, fun hs => ?_, h3, fun hm => ?_, fun hm => ?_⟩
  · show (lget (lset deactivate s.heap id0) id).isSome
    rw [e]
    exact h2 hs
  · show (lget (lset deactivate s.heap id0) id).isSome
    rw [e]
    exact h4 (List.mem_of_mem_filter hm)
  · show (lget (lset deactivate s.heap id0) id).isSome
    rw [e]
    exact h5 (List.mem_of_mem_filter hm)

theorem sysInv_put (s : AppState) (id0 t : Nat) (a b : String)
    (hth : lget s.threads id0 = some (.putStep t)) (h : SysInv s) :
    SysInv (setPC (putEvt s ⟨id0, a, b⟩) id0 .deactStep) := by
  obtain ⟨hq, hid⟩ := h
  refine ⟨?_, fun id => ?_⟩
  · show s.queueLog ++ [(⟨id0, a, b⟩ : Evt)]
      = s.dispatched ++ (s.pending ++ [(⟨id0, a, b⟩ : Evt)])
    rw [hq, List.append_assoc]
  · obtain ⟨h1, h2, h3, h4, h5⟩ := hid id
    by_cases hi : id = id0
    · subst hi
      have hget : lget (setPC (putEvt s ⟨id, a, b⟩) id .deactStep).threads id
          = some MPC.deactStep := lget_lset_self _ _ _ _ hth
      refine ⟨?_, fun _ => h2 (by rw [hth]; rfl), ?_, h4, h5⟩
      · rw [show countId id (setPC (putEvt s ⟨id, a, b⟩) id .deactStep)
            = countId id (putEvt s ⟨id, a, b⟩) from rfl]
        rw [countId_putEvt, hget, h1, hth]
        simp [firedCount]
      · intro u hu
        rw [hget] at hu
        exact absurd hu (by simp [pcT])
    · have hget : lget (setPC (putEvt s ⟨id0, a, b⟩) id0 .deactStep).threads id
          = lget s.threads id := lget_lset_ne _ _ _ _ hi
      refine ⟨?_, ?_, ?_, h4, h5⟩
      · rw [show countId id (setPC (putEvt s ⟨id0, a, b⟩) id0 .deactStep)
            = countId id (putEvt s ⟨id0, a, b⟩) from rfl]
        rw [countId_putEvt, hget, if_neg (fun hh => hi hh.symm)]
        rw [Nat.add_zero]
        exact h1
      · rw [hget]
        exact h2
      · intro u hu
        rw [hget] at hu
        exact h3 u hu

theorem sysInv_deact (s : AppState) (id0 : Nat)
    (hth : lget s.threads id0 = some .deactStep) (h : SysInv s) :
    SysInv (setPC { s with heap := lset deactivate s.heap id0 } id0
      .exitFired) := by
  obtain ⟨hq, hid⟩ := h
  refine ⟨hq, fun id => ?_⟩
  obtain ⟨h1, h2, h3, h4, h5⟩ := hid id
  have e : (lget (lset deactivate s.heap id0) id).isSome
      = (lget s.heap id).isSome := isSome_lget_lset ..
  by_cases hi : id = id0
  · subst hi
    have hget : lget (setPC { s with heap := lset deactivate s.heap id }
        id .exitFired).threads id = some MPC.exitFired :=
      lget_lset_self _ _ _ _ hth
    refine ⟨?_, fun _ => ?_, ?_, fun hm => ?_, fun hm => ?_⟩
    · rw [show countId id (setPC { s with heap := lset deactivate s.heap id }
          id .exitFired) = countId id s from rfl]
      rw [hget, h1, hth]
      rfl
    · show (lget (lset deactivate s.heap id) id).isSome
      rw [e]
      exact h2 (by rw [hth]; rfl)
    · intro u hu
      rw [hget] at hu
      exact absurd hu (by simp [pcT])
    · show (lget (lset deactivate s.heap id) id).isSome
      rw [e]
      exact h4 hm
    · show (lget (lset deactivate s.heap id) id).isSome
      rw [e]
      exact h5 hm
  · have hget : lget (setPC { s with heap := lset deactivate s.heap id0 }
        id0 .exitFired).threads id = lget s.threads id :=
      lget_lset_ne _ _ _ _ hi
    refine ⟨?_, ?_, ?_, fun hm => ?_, fun hm => ?_⟩
    · rw [show countId id (setPC { s with heap := lset deactivate s.heap id0 }
          id0 .exitFired) = countId id s from rfl]
      rw [hget]
      exact h1
    · show (lget (setPC { s with heap := lset deactivate s.heap id0 }
          id0 .exitFired).threads id).isSome →
        (lget (lset deactivate s.heap id0) id).isSome
      rw [hget, e]
      exact h2
    · intro u hu
      rw [hget] at hu
      exact h3 u hu
    · show (lget (lset deactivate s.heap id0) id).isSome
      rw [e]
      exact h4 hm
    · show (lget (lset deactivate s.heap id0) id).isSome
      rw [e]
      exact h5 hm

theorem sysInv_step (s : AppState) (a : Act) (h : SysInv s) :
    SysInv (step s a) := by
  obtain ⟨hq, hid⟩ := h
  cases a with
  | tick =>
    exact ⟨hq, fun id => ⟨(hid id).1, (hid id).2.1,
      fun t ht => Nat.le_trans ((hid id).2.2.1 t ht) (Nat.le_succ _),
      (hid id).2.2.2.1, (hid id).2.2.2.2⟩⟩
  | stopApp => exact ⟨hq, hid⟩
  | spawn id0 ti de tr =>
    simp only [step]
    split
    · rename_i hc
      exact sysInv_consActive s id0 _ hc.1 ⟨hq, hid⟩
    · exact ⟨hq, hid⟩
  | load id0 ti de tr la =>
    simp only [step]
    split
    · rename_i hfresh
      split
      · exact sysInv_consInactive s id0 _ ⟨hq, hid⟩
      · split
        · exact sysInv_consActive s id0 _ hfresh ⟨hq, hid⟩
        · exact sysInv_consInactive s id0 _ ⟨hq, hid⟩
    · exact ⟨hq, hid⟩
  | edit id0 ti de tr =>
    simp only [step]
    split
    · exact sysInv_lsetHeap s _ id0 ⟨hq, hid⟩
    · exact ⟨hq, hid⟩
  | remove id0 =>
    simp only [step]
    split
    · exact sysInv_remove s id0 ⟨hq, hid⟩
    · exact ⟨hq, hid⟩
  | mstep id0 =>
    show SysInv (mstep s id0)
    cases hth : lget s.threads id0 with
    | none => simp only [mstep, hth]; exact ⟨hq, hid⟩
    | some pc =>
      cases pc with
      | loopTop =>
        simp only [mstep, hth]
        split
        · exact sysInv_setPC s id0 .loopTop .exitStop hth rfl
            (fun t ht => absurd ht (by simp [pcT])) ⟨hq, hid⟩
        · exact sysInv_setPC s id0 .loopTop .lookupTh hth rfl
            (fun t ht => absurd ht (by simp [pcT])) ⟨hq, hid⟩
      | lookupTh =>
        simp only [mstep, hth]
        split
        · exact sysInv_setPC s id0 .lookupTh .readNow hth rfl
            (fun t ht => absurd ht (by simp [pcT])) ⟨hq, hid⟩
        · exact sysInv_setPC s id0 .lookupTh .crashed hth rfl
            (fun t ht => absurd ht (by simp [pcT])) ⟨hq, hid⟩
      | readNow =>
        simp only [mstep, hth]
        exact sysInv_setPC s id0 .readNow (.activeCheck s.time) hth rfl
          (fun t ht => Or.inr (le_of_eq (Option.some.inj ht).symm)) ⟨hq, hid⟩
      | activeCheck t =>
        cases hr : lget s.heap id0 with
        | none => simp only [mstep, hth, hr]; exact ⟨hq, hid⟩
        | some r =>
          simp only [mstep, hth, hr]
          split
          · exact sysInv_setPC s id0 (.activeCheck t) (.condCheck t) hth rfl
              (fun u hu => Or.inl hu) ⟨hq, hid⟩
          · exact sysInv_setPC s id0 (.activeCheck t) .exitInactive hth rfl
              (fun u hu => absurd hu (by simp [pcT])) ⟨hq, hid⟩
      | condCheck t =>
        cases hr : lget s.heap id0 with
        | none => simp only [mstep, hth, hr]; exact ⟨hq, hid⟩
        | some r =>
          simp only [mstep, hth, hr]
          split
          · exact sysInv_setPC s id0 (.condCheck t) (.putStep t) hth rfl
              (fun u hu => Or.inl hu) ⟨hq, hid⟩
          · exact sysInv_setPC s id0 (.condCheck t) .loopTop hth rfl
              (fun u hu => absurd hu (by simp [pcT])) ⟨hq, hid⟩
      | putStep t =>
        cases hr : lget s.heap id0 with
        | none => simp only [mstep, hth, hr]; exact ⟨hq, hid⟩
        | some r =>
          simp only [mstep, hth, hr]
          exact sysInv_put s id0 t r.title r.description hth ⟨hq, hid⟩
      | deactStep =>
        simp only [mstep, hth]
        exact sysInv_deact s id0 hth ⟨hq, hid⟩
      | exitStop => simp only [mstep, hth]; exact ⟨hq, hid⟩
      | exitInactive => simp only [mstep, hth]; exact ⟨hq, hid⟩
      | exitFired => simp only [mstep, hth]; exact ⟨hq, hid⟩
      | crashed => simp only [mstep, hth]; exact ⟨hq, hid⟩
  | dispatch =>
    simp only [step]
    split
    · exact ⟨hq, hid⟩
    · cases hp : s.pending with
      | nil => simp only [hp]; exact ⟨hq, hid⟩
      | cons e rest =>
        simp only [hp]
        refine ⟨?_, fun id => hid id⟩
        show s.queueLog = (s.dispatched ++ [e]) ++ rest
        rw [hq, hp, List.append_assoc]
        rfl

theorem sysInv_init (t0 : Nat) : SysInv (initState t0) := by
  refine ⟨rfl, fun id => ⟨rfl, fun hs => ?_, fun t ht => ?_, fun hm => ?_,
    fun hm => ?_⟩⟩
  · simp [initState, lget] at hs
  · simp [initState, lget, pcT] at ht
  · simp [initState] at hm
  · simp [initState] at hm

theorem sysInv_run (t0 : Nat) (acts : List Act) :
    SysInv (runActs (initState t0) acts) :=
  runActs_preserve (fun s a => sysInv_step s a) acts _ (sysInv_init t0)

theorem mstep_threads_ne (s : AppState) (id0 id : Nat) (hne : id ≠ id0) :
    lget (mstep s id0).threads id = lget s.threads id := by
  cases hth : lget s.threads id0 with
  | none => simp only [mstep, hth]
  | some pc =>
    cases pc <;> simp only [mstep, hth]
    all_goals repeat' split
    all_goals first
      | rfl
      | exact lget_lset_ne _ _ _ _ hne

theorem mstep_heap_isSome (s : AppState) (id0 id : Nat) :
    (lget (mstep s id0).heap id).isSome = (lget s.heap id).isSome := by
  cases hth : lget s.threads id0 with
  | none => simp only [mstep, hth]
  | some pc =>
    cases pc <;> simp only [mstep, hth]
    all_goals repeat' split
    all_goals first
      | rfl
      | exact isSome_lget_lset ..

theorem mstep_heap_ne (s : AppState) (id0 id : Nat) (hne : id ≠ id0) :
    lget (mstep s id0).heap id = lget s.heap id := by
  cases hth : lget s.threads id0 with
  | none => simp only [mstep, hth]
  | some pc =>
    cases pc <;> simp only [mstep, hth]
    all_goals repeat' split
    all_goals first
      | rfl
      | exact lget_lset_ne _ _ _ _ hne

theorem mstep_store (s : AppState) (id0 : Nat) :
    (mstep s id0).store = s.store := by
  cases hth : lget s.threads id0 with
  | none => simp only [mstep, hth]
  | some pc =>
    cases pc <;> simp only [mstep, hth]
    all_goals repeat' split
    all_goals rfl

theorem mstep_monitors (s : AppState) (id0 : Nat) :
    (mstep s id0).monitors = s.monitors := by
  cases hth : lget s.threads id0 with
  | none => simp only [mstep, hth]
  | some pc =>
    cases pc <;> simp only [mstep, hth]
    all_goals repeat' split
    all_goals rfl

theorem mstep_time (s : AppState) (id0 : Nat) :
    (mstep s id0).time = s.time := by
  cases hth : lget s.threads id0 with
  | none => simp only [mstep, hth]
  | some pc =>
    cases pc <;> simp only [mstep, hth]
    all_goals repeat' split
    all_goals rfl

theorem countId_mstep_ne (s : AppState) (id0 id : Nat) (hne : id ≠ id0) :
    countId id (mstep s id0) = countId id s := by
  cases hth : lget s.threads id0 with
  | none => simp only [mstep, hth]
  | some pc =>
    cases pc <;> simp only [mstep, hth]
    all_goals repeat' split
    all_goals first
      | rfl
      | (rw [countId_setPC, countId_putEvt,
          if_neg (fun hh => hne hh.symm), Nat.add_zero])

/-- C1: for every reminder id, at most one NotificationEvent is ever
enqueued onto the notification queue for that id, in every interleaving of
monitor, edit, removal (and load, dispatch, clock and shutdown) steps:
along any action sequence from the initial state, the number of events
tagged with the id is at most one. -/
theorem c1_at_most_one_event_per_id (t0 : Nat) (acts : List Act) (id : Nat) :
    countId id (runActs (initState t0) acts) ≤ 1 := by
  have h := ((sysInv_run t0 acts).2 id).1
  rw [h]
  exact firedCount_le_one _

/-- C6: the notification queue is FIFO with a single consumer: in every
reachable state the ghost history of enqueued events splits as the
dispatched events followed by the still-pending ones, so
`_handle_notifications` delivers events exactly in the order the monitors
enqueued them (the dispatched list is always a prefix of the enqueue
history). -/
theorem c6_fifo_delivery (t0 : Nat) (acts : List Act) :
    (runActs (initState t0) acts).queueLog
        = (runActs (initState t0) acts).dispatched
          ++ (runActs (initState t0) acts).pending ∧
      (runActs (initState t0) acts).dispatched
        <+: (runActs (initState t0) acts).queueLog := by
  have h := (sysInv_run t0 acts).1
  exact ⟨h, ⟨_, h.symm⟩⟩

/-- C2 (amended): on natural firing the monitor enqueues first and
deactivates afterwards: whenever a monitor is at its deactivation
statement (line 473-474), its notification event is already on the queue.
The enqueue is guarded only by the non-atomic reads of `is_active` at
lines 463 and 468, not by a successful `active:true→false` store
transition. -/
theorem c2_amended_enqueue_precedes_deactivation (t0 : Nat)
    (acts : List Act) (id : Nat)
    (h : lget (runActs (initState t0) acts).threads id
      = some MPC.deactStep) :
    countId id (runActs (initState t0) acts) = 1 := by
  have h1 := ((sysInv_run t0 acts).2 id).1
  rw [h1, h]
  rfl

/-- C10: after `_remove_reminder` deletes a reminder's entry from
`monitoring_threads` (line 441), the removed reminder's still-running
monitor thread, at the top of its next loop iteration, performs the
unguarded dictionary lookup of line 459 and dies with `KeyError`
(`crashed`), never reaching the inactive-reminder check of line 463. -/
theorem c10_monitor_keyerror_after_remove (s : AppState) (id : Nat)
    (hpc : lget s.threads id = some MPC.loopTop)
    (hstop : s.stopFlag = false)
    (hmem : id ∈ s.store) :
    lget (runActs (step s (.remove id)) [.mstep id, .mstep id]).threads id
      = some MPC.crashed := by
  have key : ∀ s2 : AppState, lget s2.threads id = some MPC.loopTop →
      s2.stopFlag = false → id ∉ s2.monitors →
      lget (mstep (mstep s2 id) id).threads id = some MPC.crashed := by
    intro s2 h1 h2 h3
    have e1 : mstep s2 id = setPC s2 id .lookupTh := by
      simp [mstep, h1, h2]
    rw [e1]
    have h1' : lget (setPC s2 id .lookupTh).threads id = some MPC.lookupTh :=
      lget_lset_self _ _ _ _ h1
    have h3' : id ∉ (setPC s2 id .lookupTh).monitors := h3
    have e2 : mstep (setPC s2 id .lookupTh) id
        = setPC (setPC s2 id .lookupTh) id .crashed := by
      simp [mstep, h1', h3']
    rw [e2]
    exact lget_lset_self _ _ _ _ h1'
  have hrm : step s (.remove id)
      = { s with
          store := s.store.filter (fun j => j ≠ id),
          heap := lset deactivate s.heap id,
          monitors := s.monitors.filter (fun j => j ≠ id) } := by
    simp only [step]
    rw [if_pos hmem]
  show lget (mstep (mstep (step s (.remove id)) id) id).threads id
    = some MPC.crashed
  refine key _ ?_ ?_ ?_
  · rw [hrm]
    exact hpc
  · rw [hrm]
    exact hstop
  · rw [hrm]
    intro hmem2
    have := List.of_mem_filter hmem2
    simp at this

/-- C2 (counterexample): with `c2trace`, at the moment the monitor
executes line 470 the store has no entry for id 0 and the reminder object
is already inactive (the remove completed first), yet the monitor still
enqueues the event: the claimed store-transition guard and
deactivate-before-enqueue order do not exist in the code. -/
theorem c2_counterexample :
    lget (runActs (initState 0) c2trace).heap 0
        = some ⟨("t"), ("d"), 0, false⟩ ∧
      ¬ 0 ∈ (runActs (initState 0) c2trace).store ∧
      lget (runActs (initState 0) c2trace).threads 0
        = some (MPC.putStep 0) ∧
      (runActs (initState 0) c2trace).queueLog = [] ∧
      (runActs (initState 0) (c2trace ++ [Act.mstep 0])).queueLog
        = [⟨0, ("t"), ("d")⟩] := by
  decide

theorem c2_amended_witness :
    lget (runActs (initState 0) (c2trace ++ [Act.mstep 0])).threads 0
        = some MPC.deactStep ∧
      countId 0 (runActs (initState 0) (c2trace ++ [Act.mstep 0])) = 1 :=
  ⟨by decide,
   c2_amended_enqueue_precedes_deactivation 0 (c2trace ++ [Act.mstep 0]) 0
     (by decide)⟩

theorem c10_witness :
    lget (runActs (initState 0) [Act.spawn 0 ("a") ("b") 0]).threads 0
        = some MPC.loopTop ∧
      (runActs (initState 0) [Act.spawn 0 ("a") ("b") 0]).stopFlag = false ∧
      0 ∈ (runActs (initState 0) [Act.spawn 0 ("a") ("b") 0]).store ∧
      lget (runActs (step (runActs (initState 0) [Act.spawn 0 ("a") ("b") 0])
          (Act.remove 0)) [Act.mstep 0, Act.mstep 0]).threads 0
        = some MPC.crashed :=
  ⟨by decide, by decide, by decide,
   c10_monitor_keyerror_after_remove
     (runActs (initState 0) [Act.spawn 0 ("a") ("b") 0]) 0
     (by decide) (by decide) (by decide)⟩

/-- C4 (counterexample): a reminder whose trigger instant equals the
clock at load time (`tr = 7 = now`) is the boundary case: line 101 uses
the strict test `datetime.now() > trigger_time`, so the reminder stays
active, a monitor thread is started for it, and the monitor then
enqueues a notification — against the claim's `≤`. -/
theorem c4_counterexample :
    lget (runActs (initState 7) [Act.load 0 ("a") ("b") 7 true]).heap 0
        = some ⟨("a"), ("b"), 7, true⟩ ∧
      lget (runActs (initState 7) [Act.load 0 ("a") ("b") 7 true]).threads 0
        = some MPC.loopTop ∧
      (runActs (initState 7) c4trace).queueLog = [⟨0, ("a"), ("b")⟩] := by
  decide

/-- C5 (counterexample): with `c5trace`, the edit to the future trigger
100 completes at instant 5 while no event has been enqueued, and resets
the record to active with the new trigger; the in-flight firing of the
prior schedule then still enqueues its event (at instant 5 < 100): the
edit suppresses nothing. -/
theorem c5_counterexample :
    (runActs (initState 0) c5trace).queueLog = [] ∧
      lget (runActs (initState 0) c5trace).heap 0
        = some ⟨("a"), ("b"), 100, true⟩ ∧
      (runActs (initState 0) (c5trace ++ [Act.mstep 0])).queueLog
        = [⟨0, ("a"), ("b")⟩] ∧
      (runActs (initState 0) (c5trace ++ [Act.mstep 0])).time = 5 := by
  decide

/-- C5 (amended): the editing branch of `_add_reminder` (lines 286-295)
resets the existing record to active with the new title, description and
trigger, but spawns no monitor thread, cancels nothing, and leaves the
queue untouched: whether the reminder fires at the new time depends
entirely on where its old monitor happens to be. -/
theorem c5_amended_edit_resets_record_only (s : AppState) (id : Nat)
    (r : MRec) (ti de : String) (tr : Nat)
    (hr : lget s.heap id = some r) (hmem : id ∈ s.store)
    (htr : s.time ≤ tr) (hti : ti ≠ ("")) :
    lget (step s (Act.edit id ti de tr)).heap id = some ⟨ti, de, tr, true⟩ ∧
      (step s (Act.edit id ti de tr)).threads = s.threads ∧
      (step s (Act.edit id ti de tr)).monitors = s.monitors ∧
      (step s (Act.edit id ti de tr)).queueLog = s.queueLog := by
  have hc : id ∈ s.store ∧ s.time ≤ tr ∧ ti ≠ "" := ⟨hmem, htr, hti⟩
  simp only [step]
  rw [if_pos hc]
  refine ⟨?_, rfl, rfl, rfl⟩
  show lget (lset (fun _ => (⟨ti, de, tr, true⟩ : MRec)) s.heap id) id
    = some ⟨ti, de, tr, true⟩
  rw [lget_lset_eq, hr]
  rfl

theorem c5_amended_witness :
    lget (runActs (initState 0) [Act.spawn 0 ("a") ("b") 5]).heap 0
        = some ⟨("a"), ("b"), 5, true⟩ ∧
      lget (step (runActs (initState 0) [Act.spawn 0 ("a") ("b") 5])
          (Act.edit 0 ("c") ("d") 9)).heap 0 = some ⟨("c"), ("d"), 9, true⟩ ∧
      (step (runActs (initState 0) [Act.spawn 0 ("a") ("b") 5])
          (Act.edit 0 ("c") ("d") 9)).threads
        = (runActs (initState 0) [Act.spawn 0 ("a") ("b") 5]).threads :=
  ⟨by decide,
   (c5_amended_edit_resets_record_only
     (runActs (initState 0) [Act.spawn 0 ("a") ("b") 5]) 0
     ⟨("a"), ("b"), 5, true⟩ ("c") ("d") 9
     (by decide) (by decide) (by decide) (by decide)).1,
   (c5_amended_edit_resets_record_only
     (runActs (initState 0) [Act.spawn 0 ("a") ("b") 5]) 0
     ⟨("a"), ("b"), 5, true⟩ ("c") ("d") 9
     (by decide) (by decide) (by decide) (by decide)).2.1⟩

theorem noThread_step (s : AppState) (a : Act) (id : Nat)
    (h1 : lget s.threads id = none) (h2 : (lget s.heap id).isSome) :
    lget (step s a).threads id = none ∧ (lget (step s a).heap id).isSome := by
  cases a with
  | tick => exact ⟨h1, h2⟩
  | stopApp => exact ⟨h1, h2⟩
  | dispatch =>
    simp only [step]
    split
    · exact ⟨h1, h2⟩
    · split
      · exact ⟨h1, h2⟩
      · exact ⟨h1, h2⟩
  | spawn id0 ti de tr =>
    simp only [step]
    split
    · rename_i hc
      have hne : id ≠ id0 := by
        intro hrfl
        rw [hrfl, hc.1] at h2
        simp at h2
      constructor
      · show lget ((id0, MPC.loopTop) :: s.threads) id = none
        rw [lget_cons, if_neg hne]
        exact h1
      · show (lget ((id0, (⟨ti, de, tr, true⟩ : MRec)) :: s.heap) id).isSome
        rw [lget_cons, if_neg hne]
        exact h2
    · exact ⟨h1, h2⟩
  | load id0 ti de tr la =>
    simp only [step]
    split
    · rename_i hfresh
      have hne : id ≠ id0 := by
        intro hrfl
        rw [hrfl, hfresh] at h2
        simp at h2
      split
      · refine ⟨h1, ?_⟩
        show (lget ((id0, (⟨ti, de, tr, false⟩ : MRec)) :: s.heap) id).isSome
        rw [lget_cons, if_neg hne]
        exact h2
      · split
        · constructor
          · show lget ((id0, MPC.loopTop) :: s.threads) id = none
            rw [lget_cons, if_neg hne]
            exact h1
          · show (lget ((id0, (⟨ti, de, tr, true⟩ : MRec)) :: s.heap) id).isSome
            rw [lget_cons, if_neg hne]
            exact h2
        · refine ⟨h1, ?_⟩
          show (lget ((id0, (⟨ti, de, tr, false⟩ : MRec)) :: s.heap) id).isSome
          rw [lget_cons, if_neg hne]
          exact h2
    · exact ⟨h1, h2⟩
  | edit id0 ti de tr =>
    simp only [step]
    split
    · refine ⟨h1, ?_⟩
      show (lget (lset (fun _ => (⟨ti, de, tr, true⟩ : MRec)) s.heap id0)
        id).isSome
      rw [isSome_lget_lset]
      exact h2
    · exact ⟨h1, h2⟩
  | remove id0 =>
    simp only [step]
    split
    · refine ⟨h1, ?_⟩
      show (lget (lset deactivate s.heap id0) id).isSome
      rw [isSome_lget_lset]
      exact h2
    · exact ⟨h1, h2⟩
  | mstep id0 =>
    by_cases hi : id = id0
    · subst hi
      have e : mstep s id = s := by simp [mstep, h1]
      show lget (mstep s id).threads id = none
        ∧ (lget (mstep s id).heap id).isSome
      rw [e]
      exact ⟨h1, h2⟩
    · constructor
      · rw [show (step s (Act.mstep id0)).threads = (mstep s id0).threads
          from rfl, mstep_threads_ne s id0 id hi]
        exact h1
      · rw [show (step s (Act.mstep id0)).heap = (mstep s id0).heap
          from rfl, mstep_heap_isSome s id0 id]
        exact h2

theorem noThread_run (s : AppState) (acts : List Act) (id : Nat)
    (h1 : lget s.threads id = none) (h2 : (lget s.heap id).isSome) :
    lget (runActs s acts).threads id = none
      ∧ (lget (runActs s acts).heap id).isSome :=
  @runActs_preserve
    (fun s2 => lget s2.threads id = none ∧ (lget s2.heap id).isSome)
    (fun s2 a h => noThread_step s2 a id h.1 h.2) acts s ⟨h1, h2⟩

/-- C4 (amended): for every reminder whose trigger instant is strictly
earlier than the clock at load time (the code's test at line 101 is
strict), loading stores it marked inactive, starts no monitor thread and
registers no monitor handle, and no notification for its id is ever
enqueued afterwards; a reminder whose trigger exactly equals the load
instant is instead left in its stored active state (see the
counterexample). -/
theorem c4_amended_strictly_past_due (t0 : Nat) (acts1 : List Act)
    (id : Nat) (ti de : String) (tr : Nat) (la : Bool) (acts2 : List Act)
    (hfresh : lget (runActs (initState t0) acts1).heap id = none)
    (hpast : tr < (runActs (initState t0) acts1).time) :
    lget (step (runActs (initState t0) acts1)
        (Act.load id ti de tr la)).heap id = some ⟨ti, de, tr, false⟩ ∧
      lget (step (runActs (initState t0) acts1)
        (Act.load id ti de tr la)).threads id = none ∧
      ¬ id ∈ (step (runActs (initState t0) acts1)
        (Act.load id ti de tr la)).monitors ∧
      countId id (runActs (step (runActs (initState t0) acts1)
        (Act.load id ti de tr la)) acts2) = 0 := by
  have hInv := (sysInv_run t0 acts1).2 id
  have hthr : lget (runActs (initState t0) acts1).threads id = none := by
    cases hth : lget (runActs (initState t0) acts1).threads id with
    | none => rfl
    | some pc =>
      have := hInv.2.1 (by rw [hth]; rfl)
      rw [hfresh] at this
      exact absurd this (by simp)
  have hmon : ¬ id ∈ (runActs (initState t0) acts1).monitors := by
    intro hm
    have := hInv.2.2.2.2 hm
    rw [hfresh] at this
    exact absurd this (by simp)
  have hload : step (runActs (initState t0) acts1) (Act.load id ti de tr la)
      = { runActs (initState t0) acts1 with
          heap := (id, ⟨ti, de, tr, false⟩)
            :: (runActs (initState t0) acts1).heap,
          store := id :: (runActs (initState t0) acts1).store } := by
    simp only [step]
    rw [if_pos hfresh, if_pos hpast]
  have hheap : lget (step (runActs (initState t0) acts1)
      (Act.load id ti de tr la)).heap id = some ⟨ti, de, tr, false⟩ := by
    rw [hload]
    show lget ((id, (⟨ti, de, tr, false⟩ : MRec))
      :: (runActs (initState t0) acts1).heap) id = _
    rw [lget_cons, if_pos rfl]
  have hthr2 : lget (step (runActs (initState t0) acts1)
      (Act.load id ti de tr la)).threads id = none := by
    rw [hload]
    exact hthr
  refine ⟨hheap, hthr2, ?_, ?_⟩
  · rw [hload]
    exact hmon
  · have hnt := noThread_run _ acts2 id hthr2 (by rw [hheap]; rfl)
    have hruns : runActs (initState t0)
        ((acts1 ++ [Act.load id ti de tr la]) ++ acts2)
        = runActs (step (runActs (initState t0) acts1)
            (Act.load id ti de tr la)) acts2 := by
      rw [runActs_append, runActs_append]
      rfl
    have hc := ((sysInv_run t0
      ((acts1 ++ [Act.load id ti de tr la]) ++ acts2)).2 id).1
    rw [hruns] at hc
    rw [hc, hnt.1]
    rfl

theorem c4_amended_witness :
    lget (runActs (initState 9) []).heap 0 = none ∧
      3 < (runActs (initState 9) []).time ∧
      (lget (step (runActs (initState 9) [])
          (Act.load 0 ("a") ("b") 3 true)).heap 0
          = some ⟨("a"), ("b"), 3, false⟩ ∧
        lget (step (runActs (initState 9) [])
          (Act.load 0 ("a") ("b") 3 true)).threads 0 = none ∧
        ¬ 0 ∈ (step (runActs (initState 9) [])
          (Act.load 0 ("a") ("b") 3 true)).monitors ∧
        countId 0 (runActs (step (runActs (initState 9) [])
          (Act.load 0 ("a") ("b") 3 true)) [Act.mstep 0]) = 0) :=
  ⟨by decide, by decide,
   c4_amended_strictly_past_due 9 [] 0 ("a") ("b") 3 true [Act.mstep 0]
     (by decide) (by decide)⟩

theorem trigMap_lset_deactivate (l : List (Nat × MRec)) (k j : Nat) :
    (lget (lset deactivate l k) j).map (fun r => r.trigger)
      = (lget l j).map (fun r => r.trigger) := by
  by_cases hj : j = k
  · subst hj
    rw [lget_lset_eq]
    cases lget l j <;> rfl
  · rw [lget_lset_ne _ _ _ _ hj]

theorem firedLate_of_eq (s s2 : AppState) (id : Nat)
    (hth : lget s2.threads id = lget s.threads id)
    (htr : trigOf s2 id = trigOf s id)
    (htime : s.time ≤ s2.time)
    (h : FiredLate id s) : FiredLate id s2 := by
  obtain ⟨hput, hfired⟩ := h
  refine ⟨fun t ht => ?_, fun hd => ?_⟩
  · rw [hth] at ht
    obtain ⟨g, hg, hle⟩ := hput t ht
    exact ⟨g, by rw [htr]; exact hg, hle⟩
  · rw [hth] at hd
    obtain ⟨g, hg, hle⟩ := hfired hd
    exact ⟨g, by rw [htr]; exact hg, Nat.le_trans hle htime⟩

theorem firedLate_setPC_self (s : AppState) (id : Nat) (pc : MPC)
    (hp : ∀ t, pc ≠ MPC.putStep t)
    (hd1 : pc ≠ MPC.deactStep) (hd2 : pc ≠ MPC.exitFired) :
    FiredLate id (setPC s id pc) := by
  refine ⟨fun t ht => ?_, fun hd => ?_⟩
  · replace ht : lget (lset (fun _ => pc) s.threads id) id
        = some (MPC.putStep t) := ht
    rw [lget_lset_eq] at ht
    cases h0 : lget s.threads id with
    | none => rw [h0] at ht; exact absurd ht (by simp)
    | some q =>
      rw [h0] at ht
      exact absurd (Option.some.inj ht) (hp t)
  · replace hd : lget (lset (fun _ => pc) s.threads id) id = some MPC.deactStep
        ∨ lget (lset (fun _ => pc) s.threads id) id = some MPC.exitFired := hd
    rw [lget_lset_eq] at hd
    cases h0 : lget s.threads id with
    | none =>
      rw [h0] at hd
      rcases hd with hd | hd <;> exact absurd hd (by simp)
    | some q =>
      rw [h0] at hd
      rcases hd with hd | hd
      · exact absurd (Option.some.inj hd) hd1
      · exact absurd (Option.some.inj hd) hd2

theorem firedLate_step (s : AppState) (a : Act) (id : Nat)
    (hInv : SysInv s) (h : FiredLate id s) (hne : isEditOf id a = false) :
    FiredLate id (step s a) := by
  obtain ⟨hput, hfired⟩ := h
  cases a with
  | tick =>
    exact firedLate_of_eq s _ id rfl rfl (Nat.le_succ _) ⟨hput, hfired⟩
  | stopApp =>
    exact firedLate_of_eq s _ id rfl rfl (Nat.le_refl _) ⟨hput, hfired⟩
  | dispatch =>
    simp only [step]
    split
    · exact ⟨hput, hfired⟩
    · split
      · exact ⟨hput, hfired⟩
      · exact firedLate_of_eq s _ id rfl rfl (Nat.le_refl _) ⟨hput, hfired⟩
  | spawn id0 ti de tr =>
    simp only [step]
    split
    · rename_i hc
      by_cases hi : id = id0
      · subst hi
        have hthr : lget s.threads id = none := by
          cases hth : lget s.threads id with
          | none => rfl
          | some pc =>
            have h2 := (hInv.2 id).2.1 (by rw [hth]; rfl)
            rw [hc.1] at h2
            simp at h2
        refine ⟨fun t ht => ?_, fun hd => ?_⟩
        · replace ht : lget ((id, MPC.loopTop) :: s.threads) id
              = some (MPC.putStep t) := ht
          rw [lget_cons, if_pos rfl] at ht
          exact absurd ht (by simp)
        · replace hd : lget ((id, MPC.loopTop) :: s.threads) id
              = some MPC.deactStep
              ∨ lget ((id, MPC.loopTop) :: s.threads) id
                = some MPC.exitFired := hd
          rw [lget_cons, if_pos rfl] at hd
          rcases hd with hd | hd <;> exact absurd hd (by simp)
      · refine firedLate_of_eq s _ id ?_ ?_ (Nat.le_refl _) ⟨hput, hfired⟩
        · show lget ((id0, MPC.loopTop) :: s.threads) id = lget s.threads id
          rw [lget_cons, if_neg hi]
        · show (lget ((id0, (⟨ti, de, tr, true⟩ : MRec)) :: s.heap) id).map
            (fun r => r.trigger) = (lget s.heap id).map (fun r => r.trigger)
          rw [lget_cons, if_neg hi]
    · exact ⟨hput, hfired⟩
  | load id0 ti de tr la =>
    simp only [step]
    split
    · rename_i hfresh
      by_cases hi : id = id0
      · subst hi
        have hthr : lget s.threads id = none := by
          cases hth : lget s.threads id with
          | none => rfl
          | some pc =>
            have h2 := (hInv.2 id).2.1 (by rw [hth]; rfl)
            rw [hfresh] at h2
            simp at h2
        split
        · refine ⟨fun t ht => ?_, fun hd => ?_⟩
          · replace ht : lget s.threads id = some (MPC.putStep t) := ht
            rw [hthr] at ht
            exact absurd ht (by simp)
          · replace hd : lget s.threads id = some MPC.deactStep
                ∨ lget s.threads id = some MPC.exitFired := hd
            rw [hthr] at hd
            rcases hd with hd | hd <;> exact absurd hd (by simp)
        · split
          · refine ⟨fun t ht => ?_, fun hd => ?_⟩
            · replace ht : lget ((id, MPC.loopTop) :: s.threads) id
                  = some (MPC.putStep t) := ht
              rw [lget_cons, if_pos rfl] at ht
              exact absurd ht (by simp)
            · replace hd : lget ((id, MPC.loopTop) :: s.threads) id
                  = some MPC.deactStep
                  ∨ lget ((id, MPC.loopTop) :: s.threads) id
                    = some MPC.exitFired := hd
              rw [lget_cons, if_pos rfl] at hd
              rcases hd with hd | hd <;> exact absurd hd (by simp)
          · refine ⟨fun t ht => ?_, fun hd => ?_⟩
            · replace ht : lget s.threads id = some (MPC.putStep t) := ht
              rw [hthr] at ht
              exact absurd ht (by simp)
            · replace hd : lget s.threads id = some MPC.deactStep
                  ∨ lget s.threads id = some MPC.exitFired := hd
              rw [hthr] at hd
              rcases hd with hd | hd <;> exact absurd hd (by simp)
      · split
        · refine firedLate_of_eq s _ id rfl ?_ (Nat.le_refl _) ⟨hput, hfired⟩
          show (lget ((id0, (⟨ti, de, tr, false⟩ : MRec)) :: s.heap) id).map
            (fun r => r.trigger) = (lget s.heap id).map (fun r => r.trigger)
          rw [lget_cons, if_neg hi]
        · split
          · refine firedLate_of_eq s _ id ?_ ?_ (Nat.le_refl _) ⟨hput, hfired⟩
            · show lget ((id0, MPC.loopTop) :: s.threads) id
                = lget s.threads id
              rw [lget_cons, if_neg hi]
            · show (lget ((id0, (⟨ti, de, tr, true⟩ : MRec)) :: s.heap)
                id).map (fun r => r.trigger)
                = (lget s.heap id).map (fun r => r.trigger)
              rw [lget_cons, if_neg hi]
          · refine firedLate_of_eq s _ id rfl ?_ (Nat.le_refl _)
              ⟨hput, hfired⟩
            show (lget ((id0, (⟨ti, de, tr, false⟩ : MRec)) :: s.heap) id).map
              (fun r => r.trigger) = (lget s.heap id).map (fun r => r.trigger)
            rw [lget_cons, if_neg hi]
    · exact ⟨hput, hfired⟩
  | edit id0 ti de tr =>
    have hi : id ≠ id0 := by
      intro hrfl
      rw [hrfl] at hne
      simp [isEditOf] at hne
    simp only [step]
    split
    · refine firedLate_of_eq s _ id rfl ?_ (Nat.le_refl _) ⟨hput, hfired⟩
      show (lget (lset (fun _ => (⟨ti, de, tr, true⟩ : MRec)) s.heap id0)
        id).map (fun r => r.trigger)
        = (lget s.heap id).map (fun r => r.trigger)
      rw [lget_lset_ne _ _ _ _ hi]
    · exact ⟨hput, hfired⟩
  | remove id0 =>
    simp only [step]
    split
    · exact firedLate_of_eq s _ id rfl (trigMap_lset_deactivate ..)
        (Nat.le_refl _) ⟨hput, hfired⟩
    · exact ⟨hput, hfired⟩
  | mstep id0 =>
    show FiredLate id (mstep s id0)
    by_cases hi : id = id0
    · subst hi
      cases hth : lget s.threads id with
      | none =>
        have e : mstep s id = s := by simp [mstep, hth]
        rw [e]
        exact ⟨hput, hfired⟩
      | some pc =>
        cases pc with
        | loopTop =>
          simp only [mstep, hth]
          split
          · exact firedLate_setPC_self s id .exitStop (by simp) (by simp)
              (by simp)
          · exact firedLate_setPC_self s id .lookupTh (by simp) (by simp)
              (by simp)
        | lookupTh =>
          simp only [mstep, hth]
          split
          · exact firedLate_setPC_self s id .readNow (by simp) (by simp)
              (by simp)
          · exact firedLate_setPC_self s id .crashed (by simp) (by simp)
              (by simp)
        | readNow =>
          simp only [mstep, hth]
          exact firedLate_setPC_self s id (.activeCheck s.time) (by simp)
            (by simp) (by simp)
        | activeCheck t =>
          cases hr : lget s.heap id with
          | none => simp only [mstep, hth, hr]; exact ⟨hput, hfired⟩
          | some r =>
            simp only [mstep, hth, hr]
            split
            · exact firedLate_setPC_self s id (.condCheck t) (by simp)
                (by simp) (by simp)
            · exact firedLate_setPC_self s id .exitInactive (by simp)
                (by simp) (by simp)
        | condCheck t =>
          cases hr : lget s.heap id with
          | none => simp only [mstep, hth, hr]; exact ⟨hput, hfired⟩
          | some r =>
            simp only [mstep, hth, hr]
            split
            · rename_i hcond
              refine ⟨fun u hu => ?_, fun hd => ?_⟩
              · replace hu : lget (lset (fun _ => MPC.putStep t) s.threads id)
                    id = some (MPC.putStep u) := hu
                rw [lget_lset_eq, hth] at hu
                have h1 := Option.some.inj hu
                injection h1 with h2
                subst h2
                refine ⟨r.trigger, ?_, hcond.1⟩
                show (lget s.heap id).map (fun r => r.trigger) = some r.trigger
                rw [hr]
                rfl
              · replace hd : lget (lset (fun _ => MPC.putStep t) s.threads id)
                    id = some MPC.deactStep
                    ∨ lget (lset (fun _ => MPC.putStep t) s.threads id) id
                      = some MPC.exitFired := hd
                rw [lget_lset_eq, hth] at hd
                rcases hd with hd | hd <;>
                  exact absurd (Option.some.inj hd) (by simp)
            · exact firedLate_setPC_self s id .loopTop (by simp) (by simp)
                (by simp)
        | putStep t =>
          cases hr : lget s.heap id with
          | none => simp only [mstep, hth, hr]; exact ⟨hput, hfired⟩
          | some r =>
            simp only [mstep, hth, hr]
            refine ⟨fun u hu => ?_, fun hd => ?_⟩
            · replace hu : lget (lset (fun _ => MPC.deactStep) s.threads id) id
                  = some (MPC.putStep u) := hu
              rw [lget_lset_eq, hth] at hu
              exact absurd (Option.some.inj hu) (by simp)
            · obtain ⟨g, hg, hle⟩ := hput t hth
              have htle : t ≤ s.time := (hInv.2 id).2.2.1 t (by rw [hth]; rfl)
              refine ⟨g, ?_, Nat.le_trans hle htle⟩
              show (lget s.heap id).map (fun r => r.trigger) = some g
              exact hg
        | deactStep =>
          simp only [mstep, hth]
          refine ⟨fun u hu => ?_, fun hd => ?_⟩
          · replace hu : lget (lset (fun _ => MPC.exitFired) s.threads id) id
                = some (MPC.putStep u) := hu
            rw [lget_lset_eq, hth] at hu
            exact absurd (Option.some.inj hu) (by simp)
          · obtain ⟨g, hg, hle⟩ := hfired (Or.inl hth)
            refine ⟨g, ?_, hle⟩
            show (lget (lset deactivate s.heap id) id).map (fun r => r.trigger)
              = some g
            rw [trigMap_lset_deactivate]
            exact hg
        | exitStop => simp only [mstep, hth]; exact ⟨hput, hfired⟩
        | exitInactive => simp only [mstep, hth]; exact ⟨hput, hfired⟩
        | exitFired => simp only [mstep, hth]; exact ⟨hput, hfired⟩
        | crashed => simp only [mstep, hth]; exact ⟨hput, hfired⟩
    · refine firedLate_of_eq s _ id (mstep_threads_ne s id0 id hi) ?_ ?_
        ⟨hput, hfired⟩
      · show (lget (mstep s id0).heap id).map (fun r => r.trigger)
          = (lget s.heap id).map (fun r => r.trigger)
        rw [mstep_heap_ne s id0 id hi]
      · exact Nat.le_of_eq (mstep_time s id0).symm

theorem deadFor_of_eq (s s2 : AppState) (id : Nat)
    (hth : lget s2.threads id = lget s.threads id)
    (hh : lget s2.heap id = lget s.heap id)
    (hst : id ∈ s2.store → id ∈ s.store)
    (h : DeadFor id s) : DeadFor id s2 := by
  obtain ⟨⟨r, hr, hract⟩, hstore, hnp, hnd⟩ := h
  exact ⟨⟨r, by rw [hh]; exact hr, hract⟩, fun hm => hstore (hst hm),
    fun t => by rw [hth]; exact hnp t, by rw [hth]; exact hnd⟩

theorem deadFor_setPC_self (s : AppState) (id : Nat) (pc : MPC)
    (hp : ∀ t, pc ≠ MPC.putStep t) (hd : pc ≠ MPC.deactStep)
    (h1 : ∃ r, lget s.heap id = some r ∧ r.is_active = false)
    (h2 : ¬ id ∈ s.store) :
    DeadFor id (setPC s id pc) := by
  refine ⟨h1, h2, fun t hcon => ?_, fun hcon => ?_⟩
  · replace hcon : lget (lset (fun _ => pc) s.threads id) id
        = some (MPC.putStep t) := hcon
    rw [lget_lset_eq] at hcon
    cases h0 : lget s.threads id with
    | none => rw [h0] at hcon; exact absurd hcon (by simp)
    | some q => rw [h0] at hcon; exact absurd (Option.some.inj hcon) (hp t)
  · replace hcon : lget (lset (fun _ => pc) s.threads id) id
        = some MPC.deactStep := hcon
    rw [lget_lset_eq] at hcon
    cases h0 : lget s.threads id with
    | none => rw [h0] at hcon; exact absurd hcon (by simp)
    | some q => rw [h0] at hcon; exact absurd (Option.some.inj hcon) hd

theorem deadFor_step (s : AppState) (a : Act) (id : Nat) (h : DeadFor id s) :
    DeadFor id (step s a) ∧ countId id (step s a) = countId id s := by
  obtain ⟨⟨r, hr, hract⟩, hstore, hnp, hnd⟩ := h
  cases a with
  | tick =>
    exact ⟨⟨⟨r, hr, hract⟩, hstore, hnp, hnd⟩, rfl⟩
  | stopApp =>
    exact ⟨⟨⟨r, hr, hract⟩, hstore, hnp, hnd⟩, rfl⟩
  | dispatch =>
    simp only [step]
    split
    · exact ⟨⟨⟨r, hr, hract⟩, hstore, hnp, hnd⟩, rfl⟩
    · split
      · exact ⟨⟨⟨r, hr, hract⟩, hstore, hnp, hnd⟩, rfl⟩
      · exact ⟨⟨⟨r, hr, hract⟩, hstore, hnp, hnd⟩, rfl⟩
  | spawn id0 ti de tr =>
    simp only [step]
    split
    · rename_i hc
      have hi : id ≠ id0 := by
        intro hrfl
        rw [← hrfl, hr] at hc
        exact absurd hc.1 (by simp)
      refine ⟨deadFor_of_eq s _ id ?_ ?_ ?_
        ⟨⟨r, hr, hract⟩, hstore, hnp, hnd⟩, rfl⟩
      · show lget ((id0, MPC.loopTop) :: s.threads) id = lget s.threads id
        rw [lget_cons, if_neg hi]
      · show lget ((id0, (⟨ti, de, tr, true⟩ : MRec)) :: s.heap) id
          = lget s.heap id
        rw [lget_cons, if_neg hi]
      · intro hm
        rcases List.mem_cons.1 hm with hrfl | hmem
        · exact absurd hrfl hi
        · exact hmem
    · exact ⟨⟨⟨r, hr, hract⟩, hstore, hnp, hnd⟩, rfl⟩
  | load id0 ti de tr la =>
    simp only [step]
    split
    · rename_i hfresh
      have hi : id ≠ id0 := by
        intro hrfl
        rw [← hrfl, hr] at hfresh
        exact absurd hfresh (by simp)
      have hstep : ∀ v : MRec,
          lget ((id0, v) :: s.heap) id = lget s.heap id := by
        intro v
        rw [lget_cons, if_neg hi]
      have hmm : id ∈ (id0 :: s.store) → id ∈ s.store := by
        intro hm
        rcases List.mem_cons.1 hm with hrfl | hmem
        · exact absurd hrfl hi
        · exact hmem
      split
      · exact ⟨deadFor_of_eq s _ id rfl (hstep _) hmm
          ⟨⟨r, hr, hract⟩, hstore, hnp, hnd⟩, rfl⟩
      · split
        · refine ⟨deadFor_of_eq s _ id ?_ (hstep _) hmm
            ⟨⟨r, hr, hract⟩, hstore, hnp, hnd⟩, rfl⟩
          show lget ((id0, MPC.loopTop) :: s.threads) id = lget s.threads id
          rw [lget_cons, if_neg hi]
        · exact ⟨deadFor_of_eq s _ id rfl (hstep _) hmm
            ⟨⟨r, hr, hract⟩, hstore, hnp, hnd⟩, rfl⟩
    · exact ⟨⟨⟨r, hr, hract⟩, hstore, hnp, hnd⟩, rfl⟩
  | edit id0 ti de tr =>
    simp only [step]
    split
    · rename_i hc
      have hi : id ≠ id0 := by
        intro hrfl
        rw [← hrfl] at hc
        exact hstore hc.1
      refine ⟨deadFor_of_eq s _ id rfl ?_ (fun hm => hm)
        ⟨⟨r, hr, hract⟩, hstore, hnp, hnd⟩, rfl⟩
      show lget (lset (fun _ => (⟨ti, de, tr, true⟩ : MRec)) s.heap id0) id
        = lget s.heap id
      exact lget_lset_ne _ _ _ _ hi
    · exact ⟨⟨⟨r, hr, hract⟩, hstore, hnp, hnd⟩, rfl⟩
  | remove id0 =>
    simp only [step]
    split
    · rename_i hc
      have hi : id ≠ id0 := by
        intro hrfl
        rw [← hrfl] at hc
        exact hstore hc
      refine ⟨deadFor_of_eq s _ id rfl ?_ ?_
        ⟨⟨r, hr, hract⟩, hstore, hnp, hnd⟩, rfl⟩
      · show lget (lset deactivate s.heap id0) id = lget s.heap id
        exact lget_lset_ne _ _ _ _ hi
      · intro hm
        exact List.mem_of_mem_filter hm
    · exact ⟨⟨⟨r, hr, hract⟩, hstore, hnp, hnd⟩, rfl⟩
  | mstep id0 =>
    show DeadFor id (mstep s id0) ∧ countId id (mstep s id0) = countId id s
    by_cases hi : id = id0
    · subst hi
      cases hth : lget s.threads id with
      | none =>
        have e : mstep s id = s := by simp [mstep, hth]
        rw [e]
        exact ⟨⟨⟨r, hr, hract⟩, hstore, hnp, hnd⟩, rfl⟩
      | some pc =>
        cases pc with
        | loopTop =>
          simp only [mstep, hth]
          split
          · exact ⟨deadFor_setPC_self s id .exitStop (by simp) (by simp)
              ⟨r, hr, hract⟩ hstore, rfl⟩
          · exact ⟨deadFor_setPC_self s id .lookupTh (by simp) (by simp)
              ⟨r, hr, hract⟩ hstore, rfl⟩
        | lookupTh =>
          simp only [mstep, hth]
          split
          · exact ⟨deadFor_setPC_self s id .readNow (by simp) (by simp)
              ⟨r, hr, hract⟩ hstore, rfl⟩
          · exact ⟨deadFor_setPC_self s id .crashed (by simp) (by simp)
              ⟨r, hr, hract⟩ hstore, rfl⟩
        | readNow =>
          simp only [mstep, hth]
          exact ⟨deadFor_setPC_self s id (.activeCheck s.time) (by simp)
            (by simp) ⟨r, hr, hract⟩ hstore, rfl⟩
        | activeCheck t =>
          simp only [mstep, hth, hr]
          split
          · rename_i hcontra
            rw [hract] at hcontra
            simp at hcontra
          · exact ⟨deadFor_setPC_self s id .exitInactive (by simp) (by simp)
              ⟨r, hr, hract⟩ hstore, rfl⟩
        | condCheck t =>
          simp only [mstep, hth, hr]
          split
          · rename_i hcond
            rw [hract] at hcond
            simp at hcond
          · exact ⟨deadFor_setPC_self s id .loopTop (by simp) (by simp)
              ⟨r, hr, hract⟩ hstore, rfl⟩
        | putStep t => exact absurd hth (hnp t)
        | deactStep => exact absurd hth hnd
        | exitStop =>
          simp only [mstep, hth]
          exact ⟨⟨⟨r, hr, hract⟩, hstore, hnp, hnd⟩, by trivial⟩
        | exitInactive =>
          simp only [mstep, hth]
          exact ⟨⟨⟨r, hr, hract⟩, hstore, hnp, hnd⟩, by trivial⟩
        | exitFired =>
          simp only [mstep, hth]
          exact ⟨⟨⟨r, hr, hract⟩, hstore, hnp, hnd⟩, by trivial⟩
        | crashed =>
          simp only [mstep, hth]
          exact ⟨⟨⟨r, hr, hract⟩, hstore, hnp, hnd⟩, by trivial⟩
    · refine ⟨deadFor_of_eq s _ id (mstep_threads_ne s id0 id hi)
        (mstep_heap_ne s id0 id hi) ?_
        ⟨⟨r, hr, hract⟩, hstore, hnp, hnd⟩, countId_mstep_ne s id0 id hi⟩
      intro hm
      rw [mstep_store s id0] at hm
      exact hm

theorem deadFor_run (s : AppState) (acts : List Act) (id : Nat)
    (h : DeadFor id s) :
    DeadFor id (runActs s acts)
      ∧ countId id (runActs s acts) = countId id s := by
  induction acts generalizing s with
  | nil => exact ⟨h, rfl⟩
  | cons a rest ih =>
    rw [runActs_cons]
    obtain ⟨hd, hc⟩ := deadFor_step s a id h
    obtain ⟨hd2, hc2⟩ := ih (step s a) hd
    exact ⟨hd2, by rw [hc2, hc]⟩

theorem firedLate_run (t0 : Nat) (acts : List Act) (id : Nat)
    (hne : ∀ a ∈ acts, isEditOf id a = false) :
    FiredLate id (runActs (initState t0) acts) := by
  have base : FiredLate id (initState t0) := by
    refine ⟨fun t ht => ?_, fun hd => ?_⟩
    · replace ht : lget ([] : List (Nat × MPC)) id = some (MPC.putStep t) := ht
      simp [lget] at ht
    · replace hd : lget ([] : List (Nat × MPC)) id = some MPC.deactStep
          ∨ lget ([] : List (Nat × MPC)) id = some MPC.exitFired := hd
      simp [lget] at hd
  exact (@runActs_preserve_of (fun s2 => SysInv s2 ∧ FiredLate id s2)
    (fun a => isEditOf id a = false)
    (fun s2 a hok hp => ⟨sysInv_step s2 a hp.1,
      firedLate_step s2 a id hp.1 hp.2 hok⟩)
    acts (initState t0) hne ⟨sysInv_init t0, base⟩).2

/-- C3: a reminder removed before its trigger instant never produces a
notification: along any run without edits of the reminder (the claim's
scope is the interleaving of the removal with the monitor's own steps),
if the reminder is in the store with its trigger still in the future and
is then removed, then — whatever steps follow — no event for its id is
ever on the queue, and the store never again contains the id. -/
theorem c3_remove_before_trigger_no_event (t0 : Nat)
    (acts1 acts2 : List Act) (id g : Nat)
    (hne1 : ∀ a ∈ acts1, isEditOf id a = false)
    (hmem : id ∈ (runActs (initState t0) acts1).store)
    (htrig : trigOf (runActs (initState t0) acts1) id = some g)
    (hfuture : (runActs (initState t0) acts1).time < g) :
    countId id (runActs (runActs (initState t0) acts1)
        (Act.remove id :: acts2)) = 0 ∧
      ¬ id ∈ (runActs (runActs (initState t0) acts1)
        (Act.remove id :: acts2)).store := by
  have hInv := sysInv_run t0 acts1
  have hFL := firedLate_run t0 acts1 id hne1
  set s1 := runActs (initState t0) acts1 with hs1
  obtain ⟨r, hr⟩ : ∃ r, lget s1.heap id = some r := by
    have h4 := (hInv.2 id).2.2.2.1 hmem
    exact Option.isSome_iff_exists.1 h4
  have hnp : ∀ t, lget s1.threads id ≠ some (MPC.putStep t) := by
    intro t hcon
    obtain ⟨g2, hg2, hle⟩ := hFL.1 t hcon
    rw [htrig] at hg2
    have hgg := Option.some.inj hg2
    have htle : t ≤ s1.time := (hInv.2 id).2.2.1 t (by rw [hcon]; rfl)
    omega
  have hnd1 : lget s1.threads id ≠ some MPC.deactStep := by
    intro hcon
    obtain ⟨g2, hg2, hle⟩ := hFL.2 (Or.inl hcon)
    rw [htrig] at hg2
    have hgg := Option.some.inj hg2
    omega
  have hnd2 : lget s1.threads id ≠ some MPC.exitFired := by
    intro hcon
    obtain ⟨g2, hg2, hle⟩ := hFL.2 (Or.inr hcon)
    rw [htrig] at hg2
    have hgg := Option.some.inj hg2
    omega
  have hcount1 : countId id s1 = 0 := by
    rw [(hInv.2 id).1]
    cases hth : lget s1.threads id with
    | none => rfl
    | some pc =>
      cases pc with
      | putStep t => exact absurd hth (hnp t)
      | deactStep => exact absurd hth hnd1
      | exitFired => exact absurd hth hnd2
      | loopTop => rfl
      | lookupTh => rfl
      | readNow => rfl
      | activeCheck t => rfl
      | condCheck t => rfl
      | exitStop => rfl
      | exitInactive => rfl
      | crashed => rfl
  have hrm : step s1 (Act.remove id)
      = { s1 with
          store := s1.store.filter (fun j => j ≠ id),
          heap := lset deactivate s1.heap id,
          monitors := s1.monitors.filter (fun j => j ≠ id) } := by
    simp only [step]
    rw [if_pos hmem]
  have hdead : DeadFor id (step s1 (Act.remove id)) := by
    rw [hrm]
    refine ⟨⟨deactivate r, ?_, rfl⟩, ?_, ?_, ?_⟩
    · show lget (lset deactivate s1.heap id) id = some (deactivate r)
      exact lget_lset_self _ _ _ _ hr
    · intro hm
      have := List.of_mem_filter hm
      simp at this
    · intro t
      exact hnp t
    · exact hnd1
  have hcrm : countId id (step s1 (Act.remove id)) = countId id s1 := by
    rw [hrm]
    rfl
  obtain ⟨hd2, hc2⟩ := deadFor_run (step s1 (Act.remove id)) acts2 id hdead
  constructor
  · rw [runActs_cons, hc2, hcrm, hcount1]
  · rw [runActs_cons]
    exact hd2.2.1

theorem c3_witness :
    (∀ a ∈ [Act.spawn 0 ("a") ("b") 9], isEditOf 0 a = false) ∧
      0 ∈ (runActs (initState 0) [Act.spawn 0 ("a") ("b") 9]).store ∧
      trigOf (runActs (initState 0) [Act.spawn 0 ("a") ("b") 9]) 0
        = some 9 ∧
      (runActs (initState 0) [Act.spawn 0 ("a") ("b") 9]).time < 9 ∧
      (countId 0 (runActs (runActs (initState 0) [Act.spawn 0 ("a") ("b") 9])
          (Act.remove 0 :: [Act.mstep 0, Act.mstep 0])) = 0 ∧
        ¬ 0 ∈ (runActs (runActs (initState 0) [Act.spawn 0 ("a") ("b") 9])
          (Act.remove 0 :: [Act.mstep 0, Act.mstep 0])).store) :=
  ⟨by decide, by decide, by decide, by decide,
   c3_remove_before_trigger_no_event 0 [Act.spawn 0 ("a") ("b") 9]
     [Act.mstep 0, Act.mstep 0] 0 9 (by decide) (by decide) (by decide)
     (by decide)⟩

/-- C7: invalid input is rejected at the boundary: on an empty (stripped)
title, a date/time string `strptime` rejects, or a parsed trigger before
`datetime.now()`, `_add_reminder` reports the corresponding error and
returns with the whole state unchanged — no reminder created or
modified, no monitor thread spawned. -/
theorem c7_invalid_input_rejected (s : AppState) (editingId : Option Nat)
    (freshId : Nat) (rawTitle rawDesc dateStr timeStr : String)
    (h : pyStrip rawTitle = "" ∨
      strptimeMinute (dateStr ++ " " ++ pyStrip timeStr) = none ∨
      ∃ dt, strptimeMinute (dateStr ++ " " ++ pyStrip timeStr) = some dt ∧
        dt.toInstant < s.time) :
    (addReminder s editingId freshId rawTitle rawDesc dateStr timeStr).1 = s
      ∧ ((addReminder s editingId freshId rawTitle rawDesc dateStr
            timeStr).2 = AddResult.errEmptyTitle ∨
        (addReminder s editingId freshId rawTitle rawDesc dateStr
            timeStr).2 = AddResult.errInvalidTime ∨
        (addReminder s editingId freshId rawTitle rawDesc dateStr
            timeStr).2 = AddResult.errPast) := by
  by_cases h1 : pyStrip rawTitle = ""
  · simp only [addReminder]
    rw [if_pos h1]
    exact ⟨rfl, Or.inl rfl⟩
  · rcases h with h | h2 | ⟨dt, hdt, hlt⟩
    · exact absurd h h1
    · simp only [addReminder, h2]
      rw [if_neg h1]
      exact ⟨rfl, Or.inr (Or.inl rfl)⟩
    · simp only [addReminder, hdt]
      rw [if_neg h1, if_pos hlt]
      exact ⟨rfl, Or.inr (Or.inr rfl)⟩

theorem c7_witness :
    (addReminder (initState 5) none 1 (" ") ("x") ("2024-01-02")
        ("03:04")).1 = initState 5 ∧
      ((addReminder (initState 5) none 1 (" ") ("x") ("2024-01-02")
          ("03:04")).2 = AddResult.errEmptyTitle ∨
        (addReminder (initState 5) none 1 (" ") ("x") ("2024-01-02")
          ("03:04")).2 = AddResult.errInvalidTime ∨
        (addReminder (initState 5) none 1 (" ") ("x") ("2024-01-02")
          ("03:04")).2 = AddResult.errPast) :=
  c7_invalid_input_rejected (initState 5) none 1 (" ") ("x") ("2024-01-02")
    ("03:04") (Or.inl (by decide))

/-- C8 (counterexample): on the empty dictionary, `from_dict` raises
`KeyError` for the missing `"title"` key (the first keyword argument
Python evaluates), not `TypeError` — so `TypeError` is not raised for
every input. -/
theorem c8_counterexample :
    from_dict ⟨none, none, none, none, none⟩
        = Except.error (PyError.keyError ("title")) ∧
      PyError.keyError ("title") ≠ PyError.typeError :=
  ⟨rfl, by decide⟩

/-- C8 (amended): `from_dict` never returns a `Reminder`: every call
raises an exception. When all five keys are present and the trigger
string parses, the exception is the `TypeError` caused by passing the
keyword arguments `reminder_id` and `is_active`, which
`Reminder.__init__` does not accept; otherwise it is the `KeyError` or
`ValueError` raised while evaluating the arguments. The load path
constructs reminders without `from_dict`. -/
theorem c8_amended_from_dict_always_raises (d : DictData) :
    (¬ ∃ rem : Reminder, from_dict d = Except.ok rem) ∧
      (∀ ti de ts i ia, d = ⟨some ti, some de, some ts, some i, some ia⟩ →
        (∃ dt, strptimeMinute ts = some dt) →
        from_dict d = Except.error PyError.typeError) := by
  constructor
  · rintro ⟨rem, hrem⟩
    obtain ⟨t, de, ts, i, ia⟩ := d
    cases t with
    | none => exact absurd hrem (by simp [from_dict])
    | some tv =>
      cases de with
      | none => exact absurd hrem (by simp [from_dict])
      | some dv =>
        cases ts with
        | none => exact absurd hrem (by simp [from_dict])
        | some tsv =>
          cases hts : strptimeMinute tsv with
          | none => exact absurd hrem (by simp [from_dict, hts])
          | some dtv =>
            cases i with
            | none => exact absurd hrem (by simp [from_dict, hts])
            | some iv =>
              cases ia with
              | none => exact absurd hrem (by simp [from_dict, hts])
              | some iav => exact absurd hrem (by simp [from_dict, hts])
  · rintro ti de ts i ia hd ⟨dt, hdt⟩
    subst hd
    simp [from_dict, hdt]

theorem c8_amended_witness :
    from_dict ⟨some ("x"), some ("y"), some ("2024-01-02 03:04"),
        some ("z"), some true⟩ = Except.error PyError.typeError :=
  (c8_amended_from_dict_always_raises
    ⟨some ("x"), some ("y"), some ("2024-01-02 03:04"), some ("z"),
      some true⟩).2 ("x") ("y") ("2024-01-02 03:04") ("z") true rfl
    ⟨⟨2024, 1, 2, 3, 4, 0, 0⟩, by decide⟩

theorem parseDigit_digitChar (n : Nat) (h : n < 10) :
    parseDigit (digitChar n) = some n := by
  interval_cases n <;> decide

theorem parse2_pads (n : Nat) (h : n < 100) :
    parse2 (digitChar (n / 10)) (digitChar (n % 10)) = some n := by
  have h1 := parseDigit_digitChar (n / 10) (by omega)
  have h2 := parseDigit_digitChar (n % 10) (by omega)
  simp only [parse2, h1, h2]
  congr 1
  omega

theorem parse4_pads (n : Nat) (h : n < 10000) :
    parse4 (digitChar (n / 100 / 10)) (digitChar (n / 100 % 10))
      (digitChar (n % 100 / 10)) (digitChar (n % 100 % 10)) = some n := by
  have h1 := parse2_pads (n / 100) (by omega)
  have h2 := parse2_pads (n % 100) (by omega)
  simp only [parse4, h1, h2]
  congr 1
  omega

theorem string_data_mk (l : List Char) : (String.mk l).data = l := rfl

theorem daysInMonth_le (y m : Nat) : daysInMonth y m ≤ 31 := by
  unfold daysInMonth
  split
  · split <;> omega
  · split <;> omega

theorem strptime_strftime (t : DT) (h : t.Valid) :
    strptimeMinute (strftimeMinute t)
      = some ⟨t.year, t.month, t.day, t.hour, t.minute, 0, 0⟩ := by
  obtain ⟨hy1, hy2, hm1, hm2, hd1, hd2, hh, hmi, _, _⟩ := h
  have p4 := parse4_pads t.year (by omega)
  have pmo := parse2_pads t.month (by omega)
  have pd := parse2_pads t.day
    (by have := daysInMonth_le t.year t.month; omega)
  have ph := parse2_pads t.hour (by omega)
  have pmi := parse2_pads t.minute (by omega)
  simp only [strftimeMinute, strptimeMinute, string_data_mk]
  simp only [p4, pmo, pd, ph, pmi]
  rw [if_pos ⟨hy1, hm1, hm2, hd1, hd2, hh, hmi⟩]

/-- C9: serialization truncates trigger times to minute precision: for
every valid datetime, the save-then-load round trip (`strftime` at line
31 then `strptime` at line 95, both with format `%Y-%m-%d %H:%M`) yields
the datetime with second and microsecond zeroed, and returns the trigger
instant unchanged iff its second and microsecond are both zero. -/
theorem c9_roundtrip_minute_precision (t : DT) (h : t.Valid) :
    trigger_roundtrip t
        = some ⟨t.year, t.month, t.day, t.hour, t.minute, 0, 0⟩ ∧
      (trigger_roundtrip t = some t ↔ t.second = 0 ∧ t.usec = 0) := by
  have key := strptime_strftime t h
  refine ⟨key, ?_⟩
  obtain ⟨y, mo, d, hh, mi, ss, us⟩ := t
  rw [show trigger_roundtrip ⟨y, mo, d, hh, mi, ss, us⟩
    = strptimeMinute (strftimeMinute ⟨y, mo, d, hh, mi, ss, us⟩) from rfl]
  rw [key]
  constructor
  · intro heq
    have h2 := Option.some.inj heq
    injection h2 with e1 e2 e3 e4 e5 e6 e7
    exact ⟨e6.symm, e7.symm⟩
  · rintro ⟨h1, h2⟩
    have hss : ss = 0 := h1
    have hus : us = 0 := h2
    subst hss
    subst hus
    rfl

theorem c9_witness :
    DT.Valid ⟨2024, 2, 29, 23, 59, 30, 5⟩ ∧
      (trigger_roundtrip ⟨2024, 2, 29, 23, 59, 30, 5⟩
          = some ⟨2024, 2, 29, 23, 59, 0, 0⟩ ∧
        (trigger_roundtrip ⟨2024, 2, 29, 23, 59, 30, 5⟩
            = some ⟨2024, 2, 29, 23, 59, 30, 5⟩ ↔
          (⟨2024, 2, 29, 23, 59, 30, 5⟩ : DT).second = 0 ∧
            (⟨2024, 2, 29, 23, 59, 30, 5⟩ : DT).usec = 0)) :=
  ⟨by unfold DT.Valid; decide,
   c9_roundtrip_minute_precision ⟨2024, 2, 29, 23, 59, 30, 5⟩
     (by unfold DT.Valid; decide)⟩
